import Mathlib

/-!
# Lurelands server module: shallow embedding and verification

This file embeds the server-authoritative economy and progression engine of
the Lurelands SpacetimeDB module (src/services/spacetime-server/src/lib.rs)
in Lean 4 and settles the frozen claims C1 - C10 against it.

Modelling conventions:

* Rust `u8`/`u32`/`u64` values are `Nat`; arithmetic that can wrap in a
  release build is wrapped explicitly with `w32`/`w64` (`% 2^32`, `% 2^64`).
* Rust `&str`/`String` item and player identifiers are Lean `String`;
  the JSON-like document texts handled by the hand-rolled codec are
  `List Char` (the documents are ASCII, so Rust byte indices coincide with
  character indices).
* Database tables are Lean lists in iteration order; `iter().find()` is
  `List.find?`, a primary-key update replaces the row with the matching id,
  a delete filters it out, and `#[auto_inc]` insertion appends a row using a
  `next...Id` counter carried in the state.
* Append-only log tables (GameEvent, FishCatch) and fields that no claim
  mentions (positions, timestamps, colors, session rows) are omitted from
  the state; no claim statement depends on them and every modelled reducer
  treats them write-only.
-/
/-- Wrapping 32-bit arithmetic (Rust release-mode `u32` overflow). -/
def w32 (n : Nat) : Nat := n % 4294967296

/-- Wrapping 64-bit arithmetic (Rust release-mode `u64` overflow). -/
def w64 (n : Nat) : Nat := n % 18446744073709551616

/-! ## Character/string helpers used by the document codec

The Rust code works on `&str` with `find`, slicing, `split`, `trim`,
`trim_matches` and `parse`.  We model the documents as `List Char` and
give each primitive its own definition.
-/
/-- First index at which `needle` occurs in `hay` (Rust `str::find` for a
string pattern, with byte positions read as character positions on the
ASCII documents this engine produces). -/
def strFind (hay needle : List Char) : Option Nat :=
  match hay with
  | [] => if needle.isEmpty then some 0 else none
  | _ :: t => if needle.isPrefixOf hay then some 0 else (strFind t needle).map (· + 1)

/-- Rust `str::contains` for a string pattern. -/
def strContains (hay needle : List Char) : Bool := (strFind hay needle).isSome

/-- ASCII whitespace as trimmed by the engine's documents (Rust `trim`
trims Unicode whitespace; the engine's documents only ever contain these). -/
def isWs (c : Char) : Bool := c = ' ' || c = '\t' || c = '\n' || c = '\r'

/-- Rust `str::trim_start`. -/
def trimStart (l : List Char) : List Char := l.dropWhile isWs

/-- Rust `str::trim`. -/
def trimBoth (l : List Char) : List Char := (l.dropWhile isWs).reverse.dropWhile isWs |>.reverse

/-- Rust `str::trim_matches '"'`: strip leading and trailing quote runs. -/
def trimQuotes (l : List Char) : List Char :=
  ((l.dropWhile (· = '"')).reverse.dropWhile (· = '"')).reverse

/-- Rust `str::split(',')`: the list of comma-separated pieces (an empty
string yields one empty piece, adjacent commas yield empty pieces). -/
def splitOnComma : List Char → List (List Char)
  | [] => [[]]
  | c :: cs =>
    match splitOnComma cs with
    | [] => if c = ',' then [[], []] else [[c]]
    | p :: ps => if c = ',' then [] :: p :: ps else (c :: p) :: ps

/-- Value of a digit character. -/
def digitVal (c : Char) : Nat := c.toNat - 48

/-- The decimal value of a digit string (no overflow; callers bound it). -/
def digitsVal (l : List Char) : Nat := l.foldl (fun a c => a * 10 + digitVal c) 0

/-- Rust `str::parse::<u32>()` as an `Option`: optional leading plus sign,
at least one ASCII digit, nothing else, and the value must fit in 32 bits. -/
def parseU32 (l : List Char) : Option Nat :=
  let ds := if l.head? = some '+' then l.drop 1 else l
  if ds.isEmpty then none
  else if ds.all Char.isDigit then
    if digitsVal ds < 4294967296 then some (digitsVal ds) else none
  else none

/-- Rust `str::parse::<u64>()` as an `Option`. -/
def parseU64 (l : List Char) : Option Nat :=
  let ds := if l.head? = some '+' then l.drop 1 else l
  if ds.isEmpty then none
  else if ds.all Char.isDigit then
    if digitsVal ds < 18446744073709551616 then some (digitsVal ds) else none
  else none

/-- The digit character of `d % 10`-style values (`d < 10` in all uses). -/
def digitChar (d : Nat) : Char :=
  match d with
  | 0 => '0' | 1 => '1' | 2 => '2' | 3 => '3' | 4 => '4'
  | 5 => '5' | 6 => '6' | 7 => '7' | 8 => '8' | _ => '9'

/-- Fuel-driven helper for `natToDigits` (structural recursion so that the
kernel can evaluate it; the fuel is always sufficient). -/
def natToDigitsAux : Nat → Nat → List Char
  | _, 0 => []
  | n, fuel + 1 =>
    if n < 10 then [digitChar n]
    else natToDigitsAux (n / 10) fuel ++ [digitChar (n % 10)]

/-- Decimal rendering of a `Nat` (Rust's `Display` for unsigned integers,
used by the `format!` calls in `set_progress_count`). -/
def natToDigits (n : Nat) : List Char := natToDigitsAux n (n + 1)

/-! ## Item classification, stacking and pricing (lib.rs lines 603-697) -/
/-- `is_pole_item`: classify by the `pole_` name head (Rust `starts_with`). -/
def is_pole_item (item_id : String) : Bool := "pole_".data.isPrefixOf item_id.data

/-- `is_fish_item`: classify by the `fish_` name head (Rust `starts_with`). -/
def is_fish_item (item_id : String) : Bool := "fish_".data.isPrefixOf item_id.data

/-- `MAX_FISH_STACK_SIZE` -/
def MAX_FISH_STACK_SIZE : Nat := 5

/-- `MAX_POLE_STACK_SIZE` -/
def MAX_POLE_STACK_SIZE : Nat := 1

/-- `get_max_stack_size`: 1 for poles, 5 for fish, `u32::MAX` otherwise. -/
def get_max_stack_size (item_id : String) : Nat :=
  if is_pole_item item_id then MAX_POLE_STACK_SIZE
  else if is_fish_item item_id then MAX_FISH_STACK_SIZE
  else 4294967295

/-- `get_item_base_sell_price`: fixed table, unknown ids default to 5.
The Rust `match` on `&str` compares patterns in order; we mirror it with a
chain of equality tests. -/
def get_item_base_sell_price (item_id : String) : Nat :=
  if item_id = "fish_pond_1" then 10
  else if item_id = "fish_pond_2" then 25
  else if item_id = "fish_pond_3" then 50
  else if item_id = "fish_pond_4" then 150
  else if item_id = "fish_river_1" then 12
  else if item_id = "fish_river_2" then 30
  else if item_id = "fish_river_3" then 60
  else if item_id = "fish_river_4" then 180
  else if item_id = "fish_ocean_1" then 15
  else if item_id = "fish_ocean_2" then 40
  else if item_id = "fish_ocean_3" then 80
  else if item_id = "fish_ocean_4" then 250
  else if item_id = "fish_night_1" then 20
  else if item_id = "fish_night_2" then 45
  else if item_id = "fish_night_3" then 90
  else if item_id = "fish_night_4" then 300
  else if item_id = "pole_1" then 0
  else if item_id = "pole_2" then 200
  else if item_id = "pole_3" then 500
  else if item_id = "pole_4" then 1500
  else if item_id = "lure_1" then 10
  else if item_id = "lure_2" then 30
  else if item_id = "lure_3" then 80
  else if item_id = "lure_4" then 250
  else 5

/-- `get_item_buy_price`: fixed table, unknown ids return 0. -/
def get_item_buy_price (item_id : String) : Nat :=
  if item_id = "pole_1" then 0
  else if item_id = "pole_2" then 200
  else if item_id = "pole_3" then 500
  else if item_id = "pole_4" then 1500
  else if item_id = "lure_1" then 20
  else if item_id = "lure_2" then 60
  else if item_id = "lure_3" then 160
  else if item_id = "lure_4" then 500
  else 0

/-- `calculate_sell_price`: base price times the rarity multiplier.
The Rust code computes `(base as f32 * m).round() as u32` with
`m` one of `1.0`, `2.0`, `4.0`; every base price is an integer at most
1500, so the `f32` product is exact and `.round()` is the identity -
the computation is exactly the integer product below. -/
def calculate_sell_price (item_id : String) (rarity : Nat) : Nat :=
  let base := get_item_base_sell_price item_id
  match rarity with
  | 0 => base * 1
  | 1 => base * 1
  | 2 => base * 2
  | 3 => base * 4
  | _ => base * 1

/-! ## Level system (lib.rs lines 700-740) -/
/-- The spec-side threshold formula: 0 for levels up to 1, else the
exact `round(100 * level^1.5)` - as a natural number,
`100 * l^1.5 = sqrt(40000 * l^3) / 2`, and rounding half-up of that
square root is `(Nat.sqrt (40000 * l^3) + 1) / 2` (exact halves never
occur because the square root of an integer is never a half-integer).
The Rust `calculate_xp_for_level` returns 0 for `level <= 1` exactly
(the early return takes no float path), but computes the other branch
in `f64` (`(XP_BASE * (level as f64).powf(XP_EXPONENT)).round()`), so
its large-level values only approximate this exact formula; the set of
values that pipeline can produce is over-approximated by
`f64XpOutcome` below.  The other reducers (C1, C10) depend on the
threshold only through `f 0 = 0`, `f k > 0` for `k ≥ 2` and
`f < 2^64`, which hold of the exact formula and of every `f64XpOutcome`
value alike. -/
def calculate_xp_for_level (level : Nat) : Nat :=
  if level ≤ 1 then 0
  else (Nat.sqrt (40000 * level ^ 3) + 1) / 2

/-- An integer value exactly representable in an IEEE-754 double:
at most 53 significant bits. -/
def F64Representable (r : Nat) : Prop :=
  ∃ m e : Nat, m < 9007199254740992 ∧ r = m * 2 ^ e

/-- Over-approximation of the `f64` pipeline of `calculate_xp_for_level`
for `level ≥ 2` (lib.rs line 725): the program returns
`(XP_BASE * (level as f64).powf(XP_EXPONENT)).round() as u64`, so its
result is the value of an integer-valued double, and it lies within
relative error `2^-20` of the exact real `100 * level^1.5` (any real
`powf` implementation is accurate to a few ulp, about `2^-50`, so every
value the program can produce satisfies this predicate; the bound is
kept in integer arithmetic by comparing squares against
`(100 * level^1.5)^2 = 10000 * level^3`, with `2^20 = 1048576`). -/
def f64XpOutcome (level r : Nat) : Prop :=
  F64Representable r
  ∧ 1048575 ^ 2 * (10000 * level ^ 3) ≤ (1048576 * r) ^ 2
  ∧ (1048576 * r) ^ 2 ≤ 1048577 ^ 2 * (10000 * level ^ 3)

/-- A level at which the exact `round(100 * level^1.5)` is an odd number
in `[2^53, 2^54)`: there the doubles are spaced 2 apart, so no `f64`
pipeline can return it. -/
def c9Level : Nat := 2514655736

/-- `calculate_fish_xp`: `10 + 10*tier + 5*(rarity-1 saturating)`, with the
tier parsed (`u64`) from the last `_`-separated piece of the item id,
defaulting to 1. Each Rust `u64` addition/multiplication wraps. -/
def calculate_fish_xp (item_id : String) (rarity : Nat) : Nat :=
  let tier := match (item_id.splitOn "_").getLast? with
    | some s => (parseU64 s.data).getD 1
    | none => 1
  w64 (w64 (10 + w64 (tier * 10)) + (rarity - 1) * 5)

/-! ## Document codec (lib.rs lines 1557-1643, 1716-1740, 1777-1808)

The engine stores quest requirements, rewards and progress as restricted
JSON-like text and reads/writes it with hand-rolled scanners.
-/
/-- The two-character empty-document sentinel. -/
def emptyDoc : List Char := ['\x7b', '\x7d']

/-- `format("\"key\"")`: the quoted search pattern for a key. -/
def quoteKey (key : List Char) : List Char := '"' :: key ++ ['"']

/-- `extract_json_number`: find `"key"`, then the next `:`, skip
whitespace, read the maximal ASCII digit run and parse it as `u32`. -/
def extract_json_number (json key : List Char) : Option Nat :=
  let searchKey := quoteKey key
  match strFind json searchKey with
  | none => none
  | some keyPos =>
    let afterKey := json.drop (keyPos + searchKey.length)
    match afterKey.findIdx? (· = ':') with
    | none => none
    | some colonPos =>
      let afterColon := trimStart (afterKey.drop (colonPos + 1))
      let numEnd := (afterColon.findIdx? (fun c => ! c.isDigit)).getD afterColon.length
      if 0 < numEnd then parseU32 (afterColon.take numEnd) else none

/-- `get_progress_count`: a missing or unparseable key reads as 0. -/
def get_progress_count (progress_json key : List Char) : Nat :=
  (extract_json_number progress_json key).getD 0

/-- `set_progress_count`: replace the numeric value of an existing key in
place, or append a new `"key":value` pair before the closing brace.  When
the key text is present but no `:` follows it anywhere, the Rust code
falls through to the append branch; the `Option` mirrors that control
flow. -/
def set_progress_count (progress_json key : List Char) (value : Nat) : List Char :=
  let searchKey := quoteKey key
  let replaced : Option (List Char) :=
    if strContains progress_json searchKey then
      match strFind progress_json searchKey with
      | some keyPos =>
        let before := progress_json.take keyPos
        let afterKey := progress_json.drop (keyPos + searchKey.length)
        match afterKey.findIdx? (· = ':') with
        | some colonPos =>
          let afterColon := afterKey.drop (colonPos + 1)
          let trimmed := trimStart afterColon
          let numEnd := (trimmed.findIdx? (fun c => ! c.isDigit)).getD trimmed.length
          let wsLen := afterColon.length - trimmed.length
          let rest := afterColon.drop (wsLen + numEnd)
          some (before ++ searchKey ++ ':' :: natToDigits value ++ rest)
        | none => none
      | none => none
    else none
  match replaced with
  | some r => r
  | none =>
    if progress_json = emptyDoc then
      '\x7b' :: searchKey ++ ':' :: natToDigits value ++ ['\x7d']
    else if progress_json.getLast? = some '\x7d' then
      progress_json.dropLast ++ ',' :: searchKey ++ ':' :: natToDigits value ++ ['\x7d']
    else progress_json

/-- One comma-separated piece of the `fish` requirement object:
empty pieces and pieces without a colon are skipped, the id is trimmed of
whitespace and quotes, the count parses with `unwrap_or(0)`, and the
progress count for the id must reach it. -/
def checkFishPart (progress_json part0 : List Char) : Bool :=
  let part := trimBoth part0
  if part.isEmpty then true
  else
    match part.findIdx? (· = ':') with
    | none => true
    | some colonPos =>
      let fish_id := trimQuotes (trimBoth (part.take colonPos))
      let required_count := (parseU32 (trimBoth (part.drop (colonPos + 1)))).getD 0
      decide (required_count ≤ get_progress_count progress_json fish_id)

/-- The per-item `fish` clause of `validate_quest_requirements`: when a
`"fish"` sub-object is present, every listed count must be met; any
failure of the scanning steps leaves the clause vacuously true. -/
def fishRequirementOk (requirements_json progress_json : List Char) : Bool :=
  if strContains requirements_json (quoteKey "fish".data) then
    match strFind requirements_json (quoteKey "fish".data) with
    | some fishStart =>
      match (requirements_json.drop fishStart).findIdx? (· = '\x7b') with
      | some objStart =>
        let remaining := requirements_json.drop (fishStart + objStart)
        match remaining.findIdx? (· = '\x7d') with
        | some objEnd =>
          let fishObj := (remaining.drop 1).take (objEnd - 1)
          (splitOnComma fishObj).all (checkFishPart progress_json)
        | none => true
      | none => true
    | none => true
  else true

/-- The `total_fish` clause: absent means no constraint. -/
def totalFishOk (requirements_json progress_json : List Char) : Bool :=
  match extract_json_number requirements_json "total_fish".data with
  | some totalReq => decide (totalReq ≤ get_progress_count progress_json "total".data)
  | none => true

/-- The `min_rarity` clause: absent means no constraint. -/
def minRarityOk (requirements_json progress_json : List Char) : Bool :=
  match extract_json_number requirements_json "min_rarity".data with
  | some minRarity => decide (minRarity ≤ get_progress_count progress_json "max_rarity".data)
  | none => true

/-- `validate_quest_requirements`: the source checks the three clauses in
sequence, returning `false` as soon as one fails; for these pure scans the
early-return chain is exactly the short-circuit conjunction. -/
def validate_quest_requirements (requirements_json progress_json : List Char) : Bool :=
  fishRequirementOk requirements_json progress_json &&
    totalFishOk requirements_json progress_json &&
    minRarityOk requirements_json progress_json

/-- `parse_item_reward`: pull `item_id` (a quoted string) and `quantity`
(default 1) out of one reward object. -/
def parse_item_reward (item_json : List Char) : Option String × Nat :=
  let itemId : Option String :=
    match strFind item_json (quoteKey "item_id".data) with
    | none => none
    | some idStart =>
      let afterKey := item_json.drop (idStart + 9)
      match afterKey.findIdx? (· = ':') with
      | none => none
      | some colonPos =>
        let afterColon := trimStart (afterKey.drop (colonPos + 1))
        if afterColon.head? = some '"' then
          match (afterColon.drop 1).findIdx? (· = '"') with
          | some endQuote => some (String.mk ((afterColon.drop 1).take endQuote))
          | none => none
        else none
  let quantity := (extract_json_number item_json "quantity".data).getD 1
  (itemId, quantity)

/-- The brace-depth scanner over the body of the `items` array in
`grant_quest_rewards`: emits each depth-0 `...` block (braces included).
`depth` is the Rust `i32` counter and may go negative on malformed
input. -/
def scanBlocksGo (content : List Char) : List Char → Int → Option Nat → Nat → List (List Char)
  | [], _, _, _ => []
  | c :: rest, depth, itemStart, i =>
    if c = '\x7b' then
      scanBlocksGo content rest (depth + 1) (if depth = 0 then some i else itemStart) (i + 1)
    else if c = '\x7d' then
      if depth - 1 = 0 then
        (match itemStart with
         | some s => [(content.drop s).take (i + 1 - s)]
         | none => []) ++ scanBlocksGo content rest (depth - 1) none (i + 1)
      else scanBlocksGo content rest (depth - 1) itemStart (i + 1)
    else scanBlocksGo content rest depth itemStart (i + 1)

/-- The reward-object blocks inside an `items` array body. -/
def scanRewardBlocks (itemsContent : List Char) : List (List Char) :=
  scanBlocksGo itemsContent itemsContent 0 none 0

/-- The parsed reward blocks of a whole rewards document: locate
`"items"`, then `[`, then the body up to the first `]`, then scan
blocks.  Empty when any step fails. -/
def rewardItemBlocks (rewards_json : List Char) : List (List Char) :=
  if strContains rewards_json (quoteKey "items".data) then
    match strFind rewards_json (quoteKey "items".data) with
    | none => []
    | some itemsStart =>
      match (rewards_json.drop itemsStart).findIdx? (· = '[') with
      | none => []
      | some arrStart =>
        let remaining := rewards_json.drop (itemsStart + arrStart)
        match remaining.findIdx? (· = ']') with
        | none => []
        | some arrEnd => scanRewardBlocks ((remaining.drop 1).take (arrEnd - 1))
  else []

/-! ## Table rows and game state (lib.rs lines 8-600)

Each structure keeps the source's field names; fields no claim depends on
(positions, cast state, colors, timestamps, display metadata) are omitted
and noted in the doc comments.
-/
/-- One `Inventory` stack row (table `inventory`). -/
structure Inventory where
  id : Nat
  player_id : String
  item_id : String
  rarity : Nat
  quantity : Nat
deriving DecidableEq

/-- One `Player` row (table `player`); position/cast/color/name/timestamp
fields are omitted, no modelled reducer reads them. -/
structure Player where
  id : String
  gold : Nat
  equipped_pole_id : Option String
deriving DecidableEq

/-- One `PlayerStats` row (table `player_stats`); the session/playtime
timestamps are omitted. -/
structure PlayerStats where
  player_id : String
  total_sessions : Nat
  total_fish_caught : Nat
  total_gold_earned : Nat
  total_gold_spent : Nat
  level : Nat
  xp : Nat
  xp_to_next_level : Nat
deriving DecidableEq

/-- One `Quest` row (table `quest`); title/description/storyline/quest
giver metadata are omitted, no modelled reducer reads them. -/
structure Quest where
  id : String
  quest_type : String
  prerequisite_quest_id : Option String
  requirements : List Char
  rewards : List Char
deriving DecidableEq

/-- One `PlayerQuest` row (table `player_quest`); the two timestamps are
omitted. -/
structure PlayerQuest where
  id : Nat
  player_id : String
  quest_id : String
  status : String
  progress : List Char
deriving DecidableEq

/-- The mutable database state touched by the modelled reducers.  Lists
are in iteration order; the `next...Id` counters model `#[auto_inc]`
surrogate keys.  The append-only `game_event` and `fish_catch` log tables
are omitted (write-only in every modelled reducer). -/
structure GameState where
  players : List Player
  inventory : List Inventory
  player_stats : List PlayerStats
  quests : List Quest
  player_quests : List PlayerQuest
  nextInvId : Nat
  nextPqId : Nat
deriving DecidableEq

/-- Primary-key update on the inventory table. -/
def updateInvById (inv : List Inventory) (row : Inventory) : List Inventory :=
  inv.map (fun r => if r.id = row.id then row else r)

/-- Primary-key delete on the inventory table. -/
def deleteInvById (inv : List Inventory) (rid : Nat) : List Inventory :=
  inv.filter (fun r => decide (r.id ≠ rid))

/-- Primary-key update on the player table. -/
def updatePlayerById (ps : List Player) (row : Player) : List Player :=
  ps.map (fun r => if r.id = row.id then row else r)

/-- Primary-key update on the player-stats table. -/
def updateStatsById (ps : List PlayerStats) (row : PlayerStats) : List PlayerStats :=
  ps.map (fun r => if r.player_id = row.player_id then row else r)

/-- Primary-key update on the player-quest table. -/
def updatePqById (ps : List PlayerQuest) (row : PlayerQuest) : List PlayerQuest :=
  ps.map (fun r => if r.id = row.id then row else r)

/-- `ctx.db.player().id().find(..)`. -/
def findPlayer (s : GameState) (pid : String) : Option Player :=
  s.players.find? (fun p => decide (p.id = pid))

/-- `ctx.db.player_stats().player_id().find(..)`. -/
def findStats (s : GameState) (pid : String) : Option PlayerStats :=
  s.player_stats.find? (fun st => decide (st.player_id = pid))

/-- `ctx.db.quest().id().find(..)`. -/
def findQuest (s : GameState) (qid : String) : Option Quest :=
  s.quests.find? (fun q => decide (q.id = qid))

/-- `#[auto_inc]` insertion into the inventory table. -/
def insertInv (s : GameState) (pid item : String) (rarity quantity : Nat) : GameState :=
  { s with
    inventory := s.inventory ++
      [{ id := s.nextInvId, player_id := pid, item_id := item,
         rarity := rarity, quantity := quantity }],
    nextInvId := s.nextInvId + 1 }

/-- The non-full-stack search predicate shared by `catch_fish`,
`add_to_inventory` and `buy_item`. -/
def nonFullStack (pid item : String) (rarity maxStack : Nat) (r : Inventory) : Bool :=
  decide (r.player_id = pid ∧ r.item_id = item ∧ r.rarity = rarity ∧ r.quantity < maxStack)

/-- The matching-stack predicate shared by `remove_from_inventory` and
`sell_item`. -/
def stackMatches (pid item : String) (rarity : Nat) (r : Inventory) : Bool :=
  decide (r.player_id = pid ∧ r.item_id = item ∧ r.rarity = rarity)

/-- All stacks of one (player, item, rarity) key, in iteration order. -/
def matchingStacks (s : GameState) (pid item : String) (rarity : Nat) : List Inventory :=
  s.inventory.filter (stackMatches pid item rarity)

/-- `iter().map(|inv| inv.quantity).sum()` with wrapping `u32` addition. -/
def sumU32 (stackList : List Inventory) : Nat :=
  stackList.foldl (fun acc r => w32 (acc + r.quantity)) 0

/-! ## Inventory ledger reducers (lib.rs lines 941-1082) -/
/-- The top-up loop of `add_to_inventory`: repeatedly find a non-full
stack and fill it.  Structured with fuel so that the kernel can evaluate
it; each pass adds at least one unit (the found stack has spare room), so
`remaining + 1` fuel always suffices and the fuel-out branch is
unreachable from `add_to_inventory`. -/
def addLoopAux : Nat → List Inventory → String → String → Nat → Nat → Nat → List Inventory × Nat
  | 0, inv, _, _, _, _, remaining => (inv, remaining)
  | fuel + 1, inv, pid, item, rarity, maxStack, remaining =>
    if remaining = 0 then (inv, 0)
    else
      match inv.find? (nonFullStack pid item rarity maxStack) with
      | none => (inv, remaining)
      | some row =>
        let space := maxStack - row.quantity
        let toAdd := min remaining space
        addLoopAux fuel (updateInvById inv { row with quantity := row.quantity + toAdd })
          pid item rarity maxStack (remaining - toAdd)

/-- The new-stack loop of `add_to_inventory`: create stacks of size
`min remaining maxStack` until nothing remains.  Fuel-structured like
`addLoopAux`; with `maxStack ≥ 1` (always true for `get_max_stack_size`)
each pass consumes at least one unit. -/
def mkStacksAux : Nat → Nat → String → String → Nat → Nat → Nat → List Inventory × Nat
  | 0, nextId, _, _, _, _, _ => ([], nextId)
  | fuel + 1, nextId, pid, item, rarity, maxStack, remaining =>
    if remaining = 0 then ([], nextId)
    else
      let stackSize := min remaining maxStack
      let p := mkStacksAux fuel (nextId + 1) pid item rarity maxStack (remaining - stackSize)
      ({ id := nextId, player_id := pid, item_id := item, rarity := rarity,
         quantity := stackSize } :: p.1, p.2)

/-- `add_to_inventory` (reducer): fill existing non-full stacks first,
then create new stacks for the remainder. -/
def add_to_inventory (s : GameState) (pid item : String) (rarity quantity : Nat) : GameState :=
  let maxStack := get_max_stack_size item
  let filled := addLoopAux (quantity + 1) s.inventory pid item rarity maxStack quantity
  let created := mkStacksAux (filled.2 + 1) s.nextInvId pid item rarity maxStack filled.2
  { s with inventory := filled.1 ++ created.1, nextInvId := created.2 }

/-- The consumption loop shared (verbatim) by `remove_from_inventory` and
`sell_item`: walk the snapshot of matching stacks in enumeration order,
deleting a stack whose whole quantity is consumed and decrementing one
consumed partially. -/
def removeLoop (inv : List Inventory) : List Inventory → Nat → List Inventory
  | [], _ => inv
  | stack :: rest, remaining =>
    if remaining = 0 then inv
    else
      let toRemove := min remaining stack.quantity
      let inv2 :=
        if stack.quantity ≤ toRemove then deleteInvById inv stack.id
        else updateInvById inv { stack with quantity := stack.quantity - toRemove }
      removeLoop inv2 rest (remaining - toRemove)

/-- `remove_from_inventory` (reducer): a zero request is a no-op; an empty
match set or an insufficient total rejects with no mutation; otherwise the
consumption loop runs. -/
def remove_from_inventory (s : GameState) (pid item : String) (rarity quantity : Nat) : GameState :=
  if quantity = 0 then s
  else
    let matching := matchingStacks s pid item rarity
    if matching.isEmpty then s
    else if sumU32 matching < quantity then s
    else { s with inventory := removeLoop s.inventory matching quantity }

/-! ## Economy reducers (lib.rs lines 1183-1372) -/
/-- `sell_item` (reducer): reject a zero quantity, a currently equipped
pole, or an insufficient total; otherwise consume the quantity across the
matching stacks, credit `unit_price * quantity` gold and bump the
lifetime gold-earned counter.  The audit event append is omitted. -/
def sell_item (s : GameState) (pid item : String) (rarity quantity : Nat) : GameState :=
  if quantity = 0 then s
  else if is_pole_item item &&
      (match findPlayer s pid with
       | some p => decide (p.equipped_pole_id = some item)
       | none => false) then s
  else
    let matching := matchingStacks s pid item rarity
    if sumU32 matching < quantity then s
    else
      let unit_price := calculate_sell_price item rarity
      let total_gold := w32 (unit_price * quantity)
      let s1 := { s with inventory := removeLoop s.inventory matching quantity }
      match findPlayer s1 pid with
      | some p =>
        let s2 := { s1 with players := updatePlayerById s1.players { p with gold := w32 (p.gold + total_gold) } }
        match findStats s2 pid with
        | some st =>
          let st2 := { st with total_gold_earned := w64 (st.total_gold_earned + total_gold) }
          { s2 with player_stats := updateStatsById s2.player_stats st2 }
        | none => s2
      | none => s1

/-- The gold-spent bookkeeping step of `buy_item`: when the price is
positive and a stats row exists, bump the lifetime gold-spent counter. -/
def buySpendStep (s1 : GameState) (pid : String) (price : Nat) : GameState :=
  if 0 < price then
    match findStats s1 pid with
    | some st =>
      let st2 := { st with total_gold_spent := w64 (st.total_gold_spent + price) }
      { s1 with player_stats := updateStatsById s1.player_stats st2 }
    | none => s1
  else s1

/-- The item-granting step of `buy_item`: one unit at rarity 0 - always a
fresh row for non-stackable items, otherwise a top-up of the first
non-full stack or a fresh row. -/
def buyGrantStep (s2 : GameState) (pid item : String) : GameState :=
  let maxStack := get_max_stack_size item
  if maxStack = 1 then insertInv s2 pid item 0 1
  else
    match s2.inventory.find? (nonFullStack pid item 0 maxStack) with
    | some row =>
      { s2 with inventory := updateInvById s2.inventory { row with quantity := row.quantity + 1 } }
    | none => insertInv s2 pid item 0 1

/-- `buy_item` (reducer): reject a zero-priced item other than the free
starter pole, a missing player, or insufficient gold; otherwise debit the
price, bump the gold-spent counter (when the price is positive), and add
one unit at rarity 0.  The audit event append is omitted. -/
def buy_item (s : GameState) (pid item : String) : GameState :=
  let price := get_item_buy_price item
  if price = 0 ∧ item ≠ "pole_1" then s
  else
    match findPlayer s pid with
    | none => s
    | some p =>
      if p.gold < price then s
      else
        let s1 := { s with players := updatePlayerById s.players { p with gold := p.gold - price } }
        buyGrantStep (buySpendStep s1 pid price) pid item

/-! ## XP and level system (lib.rs lines 1853-1901, 2362-2425) -/
/-- `XP_QUEST_BASE` -/
def XP_QUEST_BASE : Nat := 50

/-- `XP_QUEST_STORY_BONUS` -/
def XP_QUEST_STORY_BONUS : Nat := 100

/-- The level-up `while` loop of `add_xp_internal`: while the accumulated
XP reaches the cached threshold (and the threshold is positive), subtract
the threshold, increment the level (`u32`, wrapping) and recompute the
threshold from `level + 1` (again wrapping `u32`). -/
def levelUpLoop (level xp next : Nat) : Nat × Nat × Nat :=
  if h : next ≤ xp ∧ 0 < next then
    let level2 := w32 (level + 1)
    levelUpLoop level2 (xp - next) (calculate_xp_for_level (w32 (level2 + 1)))
  else (level, xp, next)
termination_by xp
decreasing_by omega

/-- The row transformation of `add_xp_internal`: repair a zero level
(legacy rows), add the XP (`u64`, wrapping), then resolve level-ups. -/
def add_xp_stats (st : PlayerStats) (xp_amount : Nat) : PlayerStats :=
  let st1 :=
    if st.level = 0 then { st with level := 1, xp_to_next_level := calculate_xp_for_level 2 }
    else st
  let r := levelUpLoop st1.level (w64 (st1.xp + xp_amount)) st1.xp_to_next_level
  { st1 with level := r.1, xp := r.2.1, xp_to_next_level := r.2.2 }

/-- `add_xp_internal`: a missing stats row makes the call a no-op. -/
def add_xp_internal (s : GameState) (pid : String) (xp_amount : Nat) : GameState :=
  match findStats s pid with
  | some st => { s with player_stats := updateStatsById s.player_stats (add_xp_stats st xp_amount) }
  | none => s

/-- `add_xp` (reducer): the public wrapper around `add_xp_internal`. -/
def add_xp (s : GameState) (pid : String) (amount : Nat) : GameState :=
  add_xp_internal s pid amount

/-- The fresh `PlayerStats` row inserted by `start_session` for a player
seen for the first time (lib.rs lines 2399-2413): level 1, zero XP, and
the level-2 threshold cached. -/
def start_session_new_stats (pid : String) : PlayerStats :=
  { player_id := pid, total_sessions := 1, total_fish_caught := 0,
    total_gold_earned := 0, total_gold_spent := 0,
    level := 1, xp := 0, xp_to_next_level := calculate_xp_for_level 2 }

/-! ## Quest reducers (lib.rs lines 1432-1555, 1645-1808) -/
/-- The progress rewrite applied per active quest on a catch: bump the
per-item counter and `total` (wrapping `u32` increments), and raise
`max_rarity` when exceeded. -/
def updateProgressForFish (progress : List Char) (item : String) (rarity : Nat) : List Char :=
  let fishCount := get_progress_count progress item.data
  let p1 := set_progress_count progress item.data (w32 (fishCount + 1))
  let totalCount := get_progress_count p1 "total".data
  let p2 := set_progress_count p1 "total".data (w32 (totalCount + 1))
  let maxRarity := get_progress_count p2 "max_rarity".data
  if maxRarity < rarity then set_progress_count p2 "max_rarity".data rarity else p2

/-- `update_quest_progress_for_fish`: rewrite the progress document of
every active quest of the player. -/
def update_quest_progress_for_fish (s : GameState) (pid item : String) (rarity : Nat) : GameState :=
  { s with player_quests := s.player_quests.map (fun pq =>
      if pq.player_id = pid ∧ pq.status = "active" then
        { pq with progress := updateProgressForFish pq.progress item rarity }
      else pq) }

/-- The lifetime fish-caught counter bump of `catch_fish`. -/
def catchStatsStep (s1 : GameState) (pid : String) : GameState :=
  match findStats s1 pid with
  | some st =>
    let st2 := { st with total_fish_caught := w32 (st.total_fish_caught + 1) }
    { s1 with player_stats := updateStatsById s1.player_stats st2 }
  | none => s1

/-- `catch_fish` (reducer): log rows omitted; add one unit to a non-full
stack or a fresh stack, bump the lifetime fish counter, grant fish XP and
update active quest progress.  No validation step can fail the call. -/
def catch_fish (s : GameState) (pid item : String) (rarity : Nat) : GameState :=
  let maxStack := get_max_stack_size item
  let s1 :=
    match s.inventory.find? (nonFullStack pid item rarity maxStack) with
    | some row =>
      { s with inventory := updateInvById s.inventory { row with quantity := row.quantity + 1 } }
    | none => insertInv s pid item rarity 1
  let s2 := catchStatsStep s1 pid
  let s3 := add_xp_internal s2 pid (calculate_fish_xp item rarity)
  update_quest_progress_for_fish s3 pid item rarity

/-- The tail of `accept_quest` after the existing-row checks: verify the
prerequisite (if any) against the possibly-already-mutated player-quest
table, then insert the fresh active row with an empty progress document. -/
def accept_quest_insert (s : GameState) (quest : Quest) (pid qid : String) : GameState :=
  let prereqOk :=
    match quest.prerequisite_quest_id with
    | some prereqId =>
      s.player_quests.any (fun pq =>
        decide (pq.player_id = pid ∧ pq.quest_id = prereqId ∧ pq.status = "completed"))
    | none => true
  if prereqOk then
    { s with
      player_quests := s.player_quests ++
        [{ id := s.nextPqId, player_id := pid, quest_id := qid,
           status := "active", progress := emptyDoc }],
      nextPqId := s.nextPqId + 1 }
  else s

/-- `accept_quest` (reducer): reject an unknown quest, an already-active
row, or a completed story row; delete a completed daily row and proceed;
then check the prerequisite and insert the fresh active row. -/
def accept_quest (s : GameState) (pid qid : String) : GameState :=
  match findQuest s qid with
  | none => s
  | some quest =>
    match s.player_quests.find? (fun pq => decide (pq.player_id = pid ∧ pq.quest_id = qid)) with
    | some pq =>
      if pq.status = "active" then s
      else if pq.status = "completed" ∧ quest.quest_type = "story" then s
      else
        let s1 :=
          if pq.status = "completed" ∧ quest.quest_type = "daily" then
            { s with player_quests := s.player_quests.filter (fun r => decide (r.id ≠ pq.id)) }
          else s
        accept_quest_insert s1 quest pid qid
    | none => accept_quest_insert s quest pid qid

/-- One parsed reward object of `grant_quest_rewards`: insert a fresh
stack of the item at rarity 0, the quantity capped at the stack
capacity; an object without an `item_id` grants nothing. -/
def grantRewardItem (pid : String) (st : GameState) (block : List Char) : GameState :=
  match parse_item_reward block with
  | (some itemId, quantity) =>
    insertInv st pid itemId 0 (min quantity (get_max_stack_size itemId))
  | (none, _) => st

/-- The gold credit of `grant_quest_rewards`: applied when the document
has a `gold` amount and the player row exists. -/
def grantGoldStep (s : GameState) (pid : String) (rewards_json : List Char) : GameState :=
  match extract_json_number rewards_json "gold".data with
  | some goldAmount =>
    match findPlayer s pid with
    | some p =>
      { s with players := updatePlayerById s.players { p with gold := w32 (p.gold + goldAmount) } }
    | none => s
  | none => s

/-- `grant_quest_rewards`: credit the `gold` amount (if present and the
player exists), then insert one fresh stack per parsed reward object. -/
def grant_quest_rewards (s : GameState) (pid : String) (rewards_json : List Char) : GameState :=
  (rewardItemBlocks rewards_json).foldl (grantRewardItem pid) (grantGoldStep s pid rewards_json)

/-- `complete_quest` (reducer): require an active row and a live quest
definition; validate the requirements; then flip the row to completed,
grant rewards and grant quest XP.  On any rejection nothing mutates. -/
def complete_quest (s : GameState) (pid qid : String) : GameState :=
  match s.player_quests.find? (fun pq =>
      decide (pq.player_id = pid ∧ pq.quest_id = qid ∧ pq.status = "active")) with
  | none => s
  | some pq =>
    match findQuest s qid with
    | none => s
    | some quest =>
      if validate_quest_requirements quest.requirements pq.progress then
        let s1 := { s with player_quests := updatePqById s.player_quests { pq with status := "completed" } }
        let s2 := grant_quest_rewards s1 pid quest.rewards
        let questXp := if quest.quest_type = "story" then XP_QUEST_BASE + XP_QUEST_STORY_BONUS else XP_QUEST_BASE
        add_xp_internal s2 pid questXp
      else s

/-! ## Operation sequences

The core operations the invariant claims quantify over, applied in
sequence from a starting state.
-/
/-- One call of a core operation, with its client-supplied arguments. -/
inductive Op where
  | addInv (pid item : String) (rarity quantity : Nat)
  | removeInv (pid item : String) (rarity quantity : Nat)
  | catchFishOp (pid item : String) (rarity : Nat)
  | buyItemOp (pid item : String)
  | sellItemOp (pid item : String) (rarity quantity : Nat)
  | acceptQuestOp (pid qid : String)
  | completeQuestOp (pid qid : String)
  | addXpOp (pid : String) (amount : Nat)
deriving DecidableEq

/-- Apply one operation. -/
def applyOp (s : GameState) : Op → GameState
  | Op.addInv pid item rarity quantity => add_to_inventory s pid item rarity quantity
  | Op.removeInv pid item rarity quantity => remove_from_inventory s pid item rarity quantity
  | Op.catchFishOp pid item rarity => catch_fish s pid item rarity
  | Op.buyItemOp pid item => buy_item s pid item
  | Op.sellItemOp pid item rarity quantity => sell_item s pid item rarity quantity
  | Op.acceptQuestOp pid qid => accept_quest s pid qid
  | Op.completeQuestOp pid qid => complete_quest s pid qid
  | Op.addXpOp pid amount => add_xp s pid amount

/-- Apply a sequence of operations in order. -/
def applyOps (s : GameState) (ops : List Op) : GameState := ops.foldl applyOp s

/-! ## C7: sell-price formula -/
/-- The item ids with an explicit base-price table entry. -/
def knownSellIds : List String :=
  ["fish_pond_1", "fish_pond_2", "fish_pond_3", "fish_pond_4",
   "fish_river_1", "fish_river_2", "fish_river_3", "fish_river_4",
   "fish_ocean_1", "fish_ocean_2", "fish_ocean_3", "fish_ocean_4",
   "fish_night_1", "fish_night_2", "fish_night_3", "fish_night_4",
   "pole_1", "pole_2", "pole_3", "pole_4",
   "lure_1", "lure_2", "lure_3", "lure_4"]

/-! ## Inventory accounting lemmas -/
/-- The (unwrapped) total quantity of one (player, item, rarity) key over
an inventory list. -/
def totalQ (inv : List Inventory) (pid item : String) (rarity : Nat) : Nat :=
  ((inv.filter (stackMatches pid item rarity)).map (fun r => r.quantity)).sum

/-- `totalOwned` of the spec: the sum over all matching stacks. -/
def totalOwned (s : GameState) (pid item : String) (rarity : Nat) : Nat :=
  totalQ s.inventory pid item rarity

/-- The concrete sell-validation scenario state: one player with 100 gold
owning 3 of `fish_pond_1` at rarity 1. -/
def sellScenarioState : GameState :=
  { players := [{ id := "p", gold := 100, equipped_pole_id := none }],
    inventory := [{ id := 1, player_id := "p", item_id := "fish_pond_1", rarity := 1, quantity := 3 }],
    player_stats := [], quests := [], player_quests := [], nextInvId := 2, nextPqId := 1 }

/-! ## C1: stack bounds invariant machinery -/
/-- The per-row bound of the claim: a live stack holds between 1 and
`capacity(item_id)` units. -/
def stackBoundsOk (r : Inventory) : Prop :=
  1 ≤ r.quantity ∧ r.quantity ≤ get_max_stack_size r.item_id

/-- Every row of an inventory list is within bounds. -/
def InvBounds (inv : List Inventory) : Prop := ∀ r ∈ inv, stackBoundsOk r

/-- Structural well-formedness of the inventory table: bounds, unique
primary keys, and keys below the auto-increment counter. -/
def StateWF (s : GameState) : Prop :=
  InvBounds s.inventory ∧ ((s.inventory.map (fun x => x.id)).Nodup)
    ∧ (∀ r ∈ s.inventory, r.id < s.nextInvId)

/-- A rewards document whose parsed item quantities are all at least 1. -/
def rewardsWF (rewards_json : List Char) : Bool :=
  (rewardItemBlocks rewards_json).all
    (fun b => (parse_item_reward b).1.isNone || decide (1 ≤ (parse_item_reward b).2))

/-- Every quest's rewards document parses to positive item quantities. -/
def QuestsWF (s : GameState) : Prop := ∀ q ∈ s.quests, rewardsWF q.rewards = true

instance (r : Inventory) : Decidable (stackBoundsOk r) :=
  inferInstanceAs (Decidable (1 ≤ r.quantity ∧ r.quantity ≤ get_max_stack_size r.item_id))

instance (inv : List Inventory) : Decidable (InvBounds inv) :=
  inferInstanceAs (Decidable (∀ r ∈ inv, stackBoundsOk r))

instance (s : GameState) : Decidable (StateWF s) :=
  inferInstanceAs (Decidable (InvBounds s.inventory
    ∧ ((s.inventory.map (fun x : Inventory => x.id)).Nodup)
    ∧ (∀ r ∈ s.inventory, r.id < s.nextInvId)))

instance (s : GameState) : Decidable (QuestsWF s) :=
  inferInstanceAs (Decidable (∀ q ∈ s.quests, rewardsWF q.rewards = true))

/-- The inventory-relevant facet of a state: the inventory table, its
auto-increment counter, and the (read-only for these operations) quest
table. -/
def invPart (s : GameState) : List Inventory × Nat × List Quest :=
  (s.inventory, s.nextInvId, s.quests)

/-- The appended row of `insertInv`. -/
def freshRow (s : GameState) (pid item : String) (rarity q : Nat) : Inventory :=
  { id := s.nextInvId, player_id := pid, item_id := item, rarity := rarity, quantity := q }

/-- A rewards document whose single item object carries `quantity: 0`. -/
def zeroRewardsDoc : List Char :=
  "\x7b\"items\":[\x7b\"item_id\":\"lure_1\",\"quantity\":0\x7d]\x7d".data

/-- A daily quest with empty requirements and the zero-quantity reward. -/
def zeroRewardQuest : Quest :=
  { id := "q1", quest_type := "daily", prerequisite_quest_id := none,
    requirements := emptyDoc, rewards := zeroRewardsDoc }

/-- A well-formed starting state (empty inventory) whose quest table
holds the zero-quantity-reward quest. -/
def zeroRewardState : GameState :=
  { players := [{ id := "p", gold := 0, equipped_pole_id := none }],
    inventory := [], player_stats := [], quests := [zeroRewardQuest],
    player_quests := [], nextInvId := 1, nextPqId := 1 }

/-- Accepting and then completing the quest. -/
def zeroRewardOps : List Op :=
  [Op.acceptQuestOp "p" "q1", Op.completeQuestOp "p" "q1"]

/-- A list of core operations exercising add, catch, buy, sell and
remove from the concrete scenario state. -/
def boundsWitnessOps : List Op :=
  [Op.addInv "p" "fish_pond_1" 1 7, Op.catchFishOp "p" "fish_pond_1" 2,
   Op.buyItemOp "p" "lure_1", Op.sellItemOp "p" "fish_pond_1" 1 3,
   Op.removeInv "p" "fish_pond_1" 1 2]

/-- A daily quest with no prerequisite. -/
def questP : Quest :=
  { id := "p1", quest_type := "daily", prerequisite_quest_id := none,
    requirements := emptyDoc, rewards := emptyDoc }

/-- A daily quest whose prerequisite is `questP`. -/
def questQ : Quest :=
  { id := "q1", quest_type := "daily", prerequisite_quest_id := some "p1",
    requirements := emptyDoc, rewards := emptyDoc }

/-- An initial state carrying the two daily quests. -/
def s0C4 : GameState :=
  { players := [], inventory := [], player_stats := [], quests := [questP, questQ],
    player_quests := [], nextInvId := 1, nextPqId := 1 }

/-- Complete both quests, then re-accept the prerequisite so that its
row is active (not completed) while the dependent quest's row is a
completed daily row. -/
def opsC4 : List Op :=
  [Op.acceptQuestOp "pl" "p1", Op.completeQuestOp "pl" "p1",
   Op.acceptQuestOp "pl" "q1", Op.completeQuestOp "pl" "q1",
   Op.acceptQuestOp "pl" "p1"]

/-- The reachable state in which re-accepting `q1` deletes the old
completed row and only then fails the prerequisite check. -/
def sC4 : GameState := applyOps s0C4 opsC4

/-- Repeated XP grants on one stats row: the fold of the
`add_xp_internal` row transformation over a list of grant amounts. -/
def applyGrants (st : PlayerStats) (grants : List Nat) : PlayerStats :=
  grants.foldl add_xp_stats st

/-- The grant ramp: the k-th grant is exactly the threshold cached at
level k+1, so every grant produces exactly one level-up. -/
def rampGrants (n : Nat) : List Nat :=
  (List.range n).map (fun k => calculate_xp_for_level (k + 2))

/-- A state holding one engine-created stats row. -/
def rampState : GameState :=
  { players := [], inventory := [],
    player_stats := [start_session_new_stats "pl"],
    quests := [], player_quests := [], nextInvId := 1, nextPqId := 1 }

/-- The ramp as a sequence of `add_xp` reducer calls. -/
def rampOps (n : Nat) : List Op := (rampGrants n).map (Op.addXpOp "pl")

/-- The number of level-ups needed to reach the `u32` wrap boundary. -/
def rampLen : Nat := 4294967294

/-! ## C8: the document codec on rendered flat documents -/
/-- A flat document model: keys with numeric values, in text order. -/
abbrev Pairs : Type := List (List Char × Nat)

/-- One rendered binding: `"key":value`. -/
def renderPair (p : List Char × Nat) : List Char :=
  quoteKey p.1 ++ (':' :: natToDigits p.2)

/-- The rendered bindings after the first, each with its leading comma. -/
def rpTail : Pairs → List Char
  | [] => []
  | p :: ps => ',' :: (renderPair p ++ rpTail ps)

/-- The comma-separated rendered bindings. -/
def renderPairs : Pairs → List Char
  | [] => []
  | p :: ps => renderPair p ++ rpTail ps

/-- The rendered document: bindings between braces. -/
def render (ps : Pairs) : List Char :=
  '\x7b' :: (renderPairs ps ++ ['\x7d'])

/-- A key as the engine writes them: non-empty, no quote, no colon. -/
def SafeKey (k : List Char) : Prop :=
  k ≠ [] ∧ ∀ c ∈ k, c ≠ '"' ∧ c ≠ ':'

instance (k : List Char) : Decidable (SafeKey k) :=
  inferInstanceAs (Decidable (k ≠ [] ∧ ∀ c ∈ k, c ≠ '"' ∧ c ≠ ':'))

/-- Replace the first binding of the key, or append one. -/
def setPairs : Pairs → List Char → Nat → Pairs
  | [], key, v => [(key, v)]
  | p :: ps, key, v => if p.1 = key then (key, v) :: ps else p :: setPairs ps key v

/-- `a` contributes no match for `needle`: searching any extension
`a ++ t` skips over `a` entirely. -/
def Skips (a needle : List Char) : Prop :=
  ∀ t, strFind (a ++ t) needle = (strFind t needle).map (· + a.length)

/-! ## Theorems -/

/-! ## General lemmas -/
theorem w32_eq_of_lt {n : Nat} (h : n < 4294967296) : w32 n = n := Nat.mod_eq_of_lt h

theorem w64_eq_of_lt {n : Nat} (h : n < 18446744073709551616) : w64 n = n := Nat.mod_eq_of_lt h

/-- `calculate_xp_for_level` is zero exactly on levels 0 and 1. -/
theorem calculate_xp_for_level_le_one {level : Nat} (h : level ≤ 1) :
    calculate_xp_for_level level = 0 := by
  simp [calculate_xp_for_level, h]

/-- The threshold for any level at least 2 is positive. -/
theorem calculate_xp_for_level_pos {level : Nat} (h : 2 ≤ level) :
    0 < calculate_xp_for_level level := by
  rw [calculate_xp_for_level, if_neg (by omega)]
  have h1 : 1 ≤ Nat.sqrt (40000 * level ^ 3) := by
    rw [Nat.le_sqrt]
    have : 8 ≤ level ^ 3 := by
      calc 8 = 2 ^ 3 := by norm_num
      _ ≤ level ^ 3 := Nat.pow_le_pow_left h 3
    omega
  omega

/-- `calculate_xp_for_level` is monotone. -/
theorem calculate_xp_for_level_mono {a b : Nat} (h : a ≤ b) :
    calculate_xp_for_level a ≤ calculate_xp_for_level b := by
  by_cases ha : a ≤ 1
  · simp [calculate_xp_for_level_le_one ha]
  · rw [calculate_xp_for_level, calculate_xp_for_level, if_neg ha, if_neg (by omega)]
    have hs : Nat.sqrt (40000 * a ^ 3) ≤ Nat.sqrt (40000 * b ^ 3) :=
      Nat.sqrt_le_sqrt (by
        have : a ^ 3 ≤ b ^ 3 := Nat.pow_le_pow_left h 3
        omega)
    omega

/-- The exact value at level `2^32`, needed for the `u32` wrap analysis. -/
theorem calculate_xp_for_level_pow32 :
    calculate_xp_for_level 4294967296 = 100 * 281474976710656 := by
  rw [calculate_xp_for_level, if_neg (by norm_num)]
  have h : (40000 : Nat) * 4294967296 ^ 3 =
      (200 * 281474976710656) * (200 * 281474976710656) := by norm_num
  rw [h, Nat.sqrt_eq]

/-- Every threshold up to level `2^32` fits far below `2^64`. -/
theorem calculate_xp_for_level_lt_u64 {level : Nat} (h : level ≤ 4294967296) :
    calculate_xp_for_level level < 18446744073709551616 := by
  have := calculate_xp_for_level_mono h
  rw [calculate_xp_for_level_pow32] at this
  omega

/-- C7. Sell-price formula: for every item id and rarity tier the sell
price is the base price times the multiplier 1 (tier 0 or 1), 2 (tier 2),
4 (tier 3), or 1 (any other tier); unknown ids have base price 5; and
`fish_ocean_3` sells for 320 at rarity 3 and 80 at rarity 1.  (The `f32`
product in the source is exact on these integers, so the real-valued
`round` is the identity.) -/
theorem claim_C7_sell_price_formula :
    (∀ item rarity, calculate_sell_price item rarity =
      get_item_base_sell_price item *
        (if rarity ≤ 1 then 1 else if rarity = 2 then 2 else if rarity = 3 then 4 else 1))
    ∧ (∀ item, item ∉ knownSellIds → get_item_base_sell_price item = 5)
    ∧ calculate_sell_price "fish_ocean_3" 3 = 320
    ∧ calculate_sell_price "fish_ocean_3" 1 = 80 := by
  refine ⟨fun item rarity => ?_, fun item h => ?_, by decide, by decide⟩
  · match rarity with
    | 0 => simp [calculate_sell_price]
    | 1 => simp [calculate_sell_price]
    | 2 => simp [calculate_sell_price]
    | 3 => simp [calculate_sell_price]
    | n + 4 => simp [calculate_sell_price]
  · simp only [knownSellIds, List.mem_cons, List.not_mem_nil, or_false] at h
    push_neg at h
    obtain ⟨h1, h2, h3, h4, h5, h6, h7, h8, h9, h10, h11, h12, h13, h14, h15, h16,
      h17, h18, h19, h20, h21, h22, h23, h24⟩ := h
    simp [get_item_base_sell_price, h1, h2, h3, h4, h5, h6, h7, h8, h9, h10, h11, h12,
      h13, h14, h15, h16, h17, h18, h19, h20, h21, h22, h23, h24]

/-- Witness for C7 at concrete inputs. -/
theorem claim_C7_sell_price_formula_witness :
    calculate_sell_price "fish_pond_2" 2 =
      get_item_base_sell_price "fish_pond_2" *
        (if 2 ≤ 1 then 1 else if 2 = 2 then 2 else if 2 = 3 then 4 else 1)
    ∧ ("driftwood" ∉ knownSellIds ∧ get_item_base_sell_price "driftwood" = 5) :=
  ⟨claim_C7_sell_price_formula.1 "fish_pond_2" 2,
   by decide, claim_C7_sell_price_formula.2.1 "driftwood" (by decide)⟩

/-! ## C9: level-threshold formula against the f64 pipeline -/
/-- The embedded spec formula is exactly the nearest integer to
`100 * level^1.5` (characterised exactly: `M = 40000 * level^3` lies
strictly between `(2r-1)^2` and `(2r+1)^2`, i.e.
`r - 1/2 < sqrt(M)/2 = 100 * level^1.5 < r + 1/2`), 0 below level 2,
and non-decreasing. -/
theorem xp_round_exact :
    (∀ level, level ≤ 1 → calculate_xp_for_level level = 0)
    ∧ (∀ level, 2 ≤ level →
        (2 * calculate_xp_for_level level - 1) ^ 2 < 40000 * level ^ 3 ∧
          40000 * level ^ 3 < (2 * calculate_xp_for_level level + 1) ^ 2)
    ∧ (∀ a b, a ≤ b → calculate_xp_for_level a ≤ calculate_xp_for_level b) := by
  refine ⟨fun level h => calculate_xp_for_level_le_one h, fun level h => ?_,
    fun a b h => calculate_xp_for_level_mono h⟩
  rw [calculate_xp_for_level, if_neg (by omega)]
  set M := 40000 * level ^ 3 with hM
  have hMpos : 320000 ≤ M := by
    have : 8 ≤ level ^ 3 := by
      calc 8 = 2 ^ 3 := by norm_num
      _ ≤ level ^ 3 := Nat.pow_le_pow_left h 3
    omega
  have hMeven : M % 2 = 0 := by omega
  have h1 : Nat.sqrt M * Nat.sqrt M ≤ M := Nat.sqrt_le M
  have h2 : M < (Nat.sqrt M + 1) * (Nat.sqrt M + 1) := Nat.lt_succ_sqrt M
  set t := Nat.sqrt M with ht
  rcases Nat.even_or_odd t with he | ho
  · obtain ⟨k, hk⟩ := he
    have hr : (t + 1) / 2 = k := by omega
    rw [hr]
    constructor
    · rcases Nat.eq_zero_or_pos k with hk0 | hk1
      · subst hk0; simp; omega
      · have : (2 * k - 1) ^ 2 < t * t := by
          have hlt : 2 * k - 1 < 2 * k := by omega
          calc (2 * k - 1) ^ 2 < (2 * k) ^ 2 := Nat.pow_lt_pow_left hlt (by norm_num)
          _ = t * t := by rw [hk]; ring
        omega
    · have : (2 * k + 1) ^ 2 = (t + 1) * (t + 1) := by rw [hk]; ring
      omega
  · obtain ⟨k, hk⟩ := ho
    have hr : (t + 1) / 2 = k + 1 := by omega
    rw [hr]
    have htodd : t * t % 2 = 1 := by
      have : t * t = 4 * (k * k) + 4 * k + 1 := by rw [hk]; ring
      omega
    constructor
    · have hsq : (2 * (k + 1) - 1) ^ 2 = t * t := by
        have : 2 * (k + 1) - 1 = t := by omega
        rw [this]; ring
      omega
    · have : (t + 1) * (t + 1) ≤ (2 * (k + 1) + 1) ^ 2 := by
        have : t + 1 ≤ 2 * (k + 1) + 1 := by omega
        calc (t + 1) * (t + 1) = (t + 1) ^ 2 := by ring
        _ ≤ (2 * (k + 1) + 1) ^ 2 := Nat.pow_le_pow_left this 2
      omega


theorem nat_le_of_sq_le {a b : Nat} (h : a ^ 2 ≤ b ^ 2) : a ≤ b := by
  by_contra hlt
  push_neg at hlt
  exact absurd h (not_le.mpr (Nat.pow_lt_pow_left hlt (by norm_num)))

theorem nat_le_of_sq_lt {a b : Nat} (h : a ^ 2 < b ^ 2) : a ≤ b := by
  by_contra hlt
  push_neg at hlt
  exact absurd (lt_of_lt_of_le h (Nat.pow_le_pow_left (le_of_lt hlt) 2)) (lt_irrefl _)

theorem c9_sqrt : Nat.sqrt (40000 * c9Level ^ 3) = 25220157911795126 := by
  have h1 : 25220157911795126 ≤ Nat.sqrt (40000 * c9Level ^ 3) :=
    Nat.le_sqrt.mpr (by norm_num [c9Level])
  have h2 : Nat.sqrt (40000 * c9Level ^ 3) < 25220157911795127 :=
    Nat.sqrt_lt.mpr (by norm_num [c9Level])
  omega

theorem c9_value : calculate_xp_for_level c9Level = 12610078955897563 := by
  rw [calculate_xp_for_level, if_neg (by norm_num [c9Level])]
  rw [c9_sqrt]

/-- C9 (counterexample to the claim as stated): at level 2514655736 the
exact `round(100 * level^1.5)` is 12610078955897563, an odd number in
`[2^53, 2^54)`; but every value the program\x27s `f64` pipeline can return
at this level - an integer-valued double within relative `2^-20` of the
exact real, a bound every `powf` satisfies by a huge margin - lies in
`[2^53, 2^54)` and is therefore even.  So the program cannot return the
claimed formula value at this (reachable `u32`) level: the spec formula
holds only of the idealised real computation, not of the code. -/
theorem claim_C9_xp_for_level_counterexample :
    c9Level < 4294967296
    ∧ calculate_xp_for_level c9Level % 2 = 1
    ∧ ∀ r : Nat, f64XpOutcome c9Level r → r ≠ calculate_xp_for_level c9Level := by
  refine ⟨by norm_num [c9Level], by rw [c9_value], ?_⟩
  intro r hr heq
  obtain ⟨⟨m, e, hm, hre⟩, hlo, hhi⟩ := hr
  have hub : r < 18014398509481984 := by
    by_contra hge
    push_neg at hge
    have h1 : (1048576 * 18014398509481984) ^ 2 ≤ (1048576 * r) ^ 2 :=
      Nat.pow_le_pow_left (by omega) 2
    have h4 := le_trans h1 hhi
    norm_num [c9Level] at h4
  have hlb : 9007199254740992 ≤ r := by
    by_contra hlt
    push_neg at hlt
    have h1 : (1048576 * r) ^ 2 < (1048576 * 9007199254740992) ^ 2 :=
      Nat.pow_lt_pow_left (by omega) (by norm_num)
    have h2 : (1048576 * 9007199254740992) ^ 2 ≤ 1048575 ^ 2 * (10000 * c9Level ^ 3) := by
      norm_num [c9Level]
    exact absurd (lt_of_le_of_lt (le_trans h2 hlo) h1) (lt_irrefl _)
  have heven : r % 2 = 0 := by
    rcases Nat.eq_zero_or_pos e with he0 | hepos
    · subst he0
      rw [pow_zero, Nat.mul_one] at hre
      omega
    · obtain ⟨e2, rfl⟩ : ∃ e2, e = e2 + 1 := ⟨e - 1, by omega⟩
      have hdvd : 2 ∣ r := ⟨m * 2 ^ e2, by rw [hre]; ring⟩
      omega
  rw [c9_value] at heq
  omega

/-- C9 (amended). The level-at-most-1 branch returns exactly 0 (the
code takes the float-free early return); the embedded spec formula
`calculate_xp_for_level` is exactly the nearest integer to
`100 * level^1.5` and is non-decreasing; and for every level at least
2, every value the `f64` pipeline can return (any implementation within
relative error `2^-20` of the exact real - far looser than any actual
`powf`) lies within about relative `2^-19` of that exact rounded value:
`(2^20-1)(2V-1) <= 2^21 r` and `2^21 r <= (2^20+1)(2V+1)` for
`V = calculate_xp_for_level level`.  Exact equality is unachievable in
general: past `2^53` the doubles are spaced 2 apart and an odd `V`
cannot be hit (counterexample above). -/
theorem claim_C9_xp_for_level_amended :
    (∀ level : Nat, level ≤ 1 → calculate_xp_for_level level = 0)
    ∧ (∀ level : Nat, 2 ≤ level →
        (2 * calculate_xp_for_level level - 1) ^ 2 < 40000 * level ^ 3 ∧
          40000 * level ^ 3 < (2 * calculate_xp_for_level level + 1) ^ 2)
    ∧ (∀ level r : Nat, 2 ≤ level → f64XpOutcome level r →
        1048575 * (2 * calculate_xp_for_level level - 1) ≤ 2097152 * r
        ∧ 2097152 * r ≤ 1048577 * (2 * calculate_xp_for_level level + 1))
    ∧ (∀ a b : Nat, a ≤ b → calculate_xp_for_level a ≤ calculate_xp_for_level b) := by
  refine ⟨xp_round_exact.1, xp_round_exact.2.1, ?_, xp_round_exact.2.2⟩
  intro level r h2 hr
  obtain ⟨_, hlo, hhi⟩ := hr
  have hV : calculate_xp_for_level level = (Nat.sqrt (40000 * level ^ 3) + 1) / 2 := by
    rw [calculate_xp_for_level, if_neg (by omega)]
  have hs1 : Nat.sqrt (40000 * level ^ 3) * Nat.sqrt (40000 * level ^ 3)
      ≤ 40000 * level ^ 3 := Nat.sqrt_le _
  have hs2 : 40000 * level ^ 3
      < (Nat.sqrt (40000 * level ^ 3) + 1) * (Nat.sqrt (40000 * level ^ 3) + 1) :=
    Nat.lt_succ_sqrt _
  have hrel1 : 2 * calculate_xp_for_level level ≤ Nat.sqrt (40000 * level ^ 3) + 1 := by
    rw [hV]; omega
  have hrel2 : Nat.sqrt (40000 * level ^ 3) ≤ 2 * calculate_xp_for_level level := by
    rw [hV]; omega
  constructor
  · have key : (1048575 * Nat.sqrt (40000 * level ^ 3)) ^ 2 ≤ (2097152 * r) ^ 2 := by
      calc (1048575 * Nat.sqrt (40000 * level ^ 3)) ^ 2
          = 1048575 ^ 2 * (Nat.sqrt (40000 * level ^ 3) * Nat.sqrt (40000 * level ^ 3)) := by
            ring
        _ ≤ 1048575 ^ 2 * (40000 * level ^ 3) := Nat.mul_le_mul_left _ hs1
        _ = 4 * (1048575 ^ 2 * (10000 * level ^ 3)) := by ring
        _ ≤ 4 * (1048576 * r) ^ 2 := Nat.mul_le_mul_left _ hlo
        _ = (2097152 * r) ^ 2 := by ring
    have key2 := nat_le_of_sq_le key
    omega
  · have key : (2097152 * r) ^ 2
        < (1048577 * (Nat.sqrt (40000 * level ^ 3) + 1)) ^ 2 := by
      calc (2097152 * r) ^ 2 = 4 * (1048576 * r) ^ 2 := by ring
        _ ≤ 4 * (1048577 ^ 2 * (10000 * level ^ 3)) := Nat.mul_le_mul_left _ hhi
        _ = 1048577 ^ 2 * (40000 * level ^ 3) := by ring
        _ < 1048577 ^ 2
            * ((Nat.sqrt (40000 * level ^ 3) + 1) * (Nat.sqrt (40000 * level ^ 3) + 1)) :=
          mul_lt_mul_of_pos_left hs2 (by norm_num)
        _ = (1048577 * (Nat.sqrt (40000 * level ^ 3) + 1)) ^ 2 := by ring
    have key2 := nat_le_of_sq_lt key
    omega

/-- Witness for the amended C9 at concrete inputs (level 4 has exact
value 800 = 25 * 2^5, a representable double inside the tolerance). -/
theorem claim_C9_xp_for_level_amended_witness :
    calculate_xp_for_level 1 = 0
    ∧ ((2 * calculate_xp_for_level 3 - 1) ^ 2 < 40000 * 3 ^ 3
      ∧ 40000 * 3 ^ 3 < (2 * calculate_xp_for_level 3 + 1) ^ 2)
    ∧ ((2:Nat) ≤ 4 ∧ f64XpOutcome 4 800)
    ∧ (1048575 * (2 * calculate_xp_for_level 4 - 1) ≤ 2097152 * 800
      ∧ 2097152 * 800 ≤ 1048577 * (2 * calculate_xp_for_level 4 + 1))
    ∧ calculate_xp_for_level 2 ≤ calculate_xp_for_level 5 := by
  have hout : f64XpOutcome 4 800 := ⟨⟨25, 5, by decide, by decide⟩, by decide, by decide⟩
  exact ⟨claim_C9_xp_for_level_amended.1 1 (by decide),
    claim_C9_xp_for_level_amended.2.1 3 (by decide),
    ⟨by decide, hout⟩,
    claim_C9_xp_for_level_amended.2.2.1 4 800 (by decide) hout,
    claim_C9_xp_for_level_amended.2.2.2 2 5 (by decide)⟩

/-! ## C6: the requirements gate is a conjunction of optional clauses -/
/-- C6. `validate_quest_requirements` is the conjunction of three
independently-optional clauses (the per-item `fish` sub-object clause,
the `total_fish` clause and the `min_rarity` clause): an absent clause
is vacuously true, a present `total_fish`/`min_rarity` clause compares
against the `total`/`max_rarity` progress counters, a key missing from
the progress document reads as 0 (the gate fails closed), the document
pair `total_fish:5` versus an empty progress document is rejected, and an
empty requirements document accepts every progress document. -/
theorem claim_C6_meets_requirements :
    (∀ req prog, validate_quest_requirements req prog =
        (fishRequirementOk req prog && totalFishOk req prog && minRarityOk req prog))
    ∧ (∀ req prog, strContains req (quoteKey "fish".data) = false →
        fishRequirementOk req prog = true)
    ∧ (∀ req prog, extract_json_number req "total_fish".data = none →
        totalFishOk req prog = true)
    ∧ (∀ req prog, extract_json_number req "min_rarity".data = none →
        minRarityOk req prog = true)
    ∧ (∀ req prog totalReq, extract_json_number req "total_fish".data = some totalReq →
        (totalFishOk req prog = true ↔ totalReq ≤ get_progress_count prog "total".data))
    ∧ (∀ req prog minR, extract_json_number req "min_rarity".data = some minR →
        (minRarityOk req prog = true ↔ minR ≤ get_progress_count prog "max_rarity".data))
    ∧ (∀ prog key, extract_json_number prog key = none → get_progress_count prog key = 0)
    ∧ validate_quest_requirements "\x7b\"total_fish\":5\x7d".data emptyDoc = false
    ∧ (∀ d, validate_quest_requirements emptyDoc d = true) := by
  refine ⟨fun req prog => rfl, ?_, ?_, ?_, ?_, ?_, ?_, by decide, ?_⟩
  · intro req prog h
    simp [fishRequirementOk, h]
  · intro req prog h
    simp [totalFishOk, h]
  · intro req prog h
    simp [minRarityOk, h]
  · intro req prog totalReq h
    simp [totalFishOk, h]
  · intro req prog minR h
    simp [minRarityOk, h]
  · intro prog key h
    simp [get_progress_count, h]
  · intro d
    have h1 : strContains emptyDoc (quoteKey "fish".data) = false := by decide
    have h2 : extract_json_number emptyDoc "total_fish".data = none := by decide
    have h3 : extract_json_number emptyDoc "min_rarity".data = none := by decide
    simp [validate_quest_requirements, fishRequirementOk, totalFishOk, minRarityOk, h1, h2, h3]

/-- Witness for C6 at concrete inputs. -/
theorem claim_C6_meets_requirements_witness :
    (strContains emptyDoc (quoteKey "fish".data) = false ∧
      fishRequirementOk emptyDoc emptyDoc = true)
    ∧ (extract_json_number "\x7b\"total_fish\":5\x7d".data "min_rarity".data = none ∧
      minRarityOk "\x7b\"total_fish\":5\x7d".data emptyDoc = true)
    ∧ (extract_json_number "\x7b\"total_fish\":5\x7d".data "total_fish".data = some 5 ∧
      (totalFishOk "\x7b\"total_fish\":5\x7d".data emptyDoc = true ↔
        5 ≤ get_progress_count emptyDoc "total".data))
    ∧ (extract_json_number emptyDoc "total".data = none ∧
      get_progress_count emptyDoc "total".data = 0) :=
  ⟨⟨by decide, claim_C6_meets_requirements.2.1 emptyDoc emptyDoc (by decide)⟩,
   ⟨by decide, claim_C6_meets_requirements.2.2.2.1 "\x7b\"total_fish\":5\x7d".data emptyDoc (by decide)⟩,
   ⟨by decide, claim_C6_meets_requirements.2.2.2.2.1 "\x7b\"total_fish\":5\x7d".data emptyDoc 5 (by decide)⟩,
   ⟨by decide, claim_C6_meets_requirements.2.2.2.2.2.2.1 emptyDoc "total".data (by decide)⟩⟩

theorem totalQ_nil {pid item : String} {rarity : Nat} : totalQ [] pid item rarity = 0 := rfl

theorem totalQ_cons {r : Inventory} {l : List Inventory} {pid item : String} {rarity : Nat} :
    totalQ (r :: l) pid item rarity =
      (if stackMatches pid item rarity r then r.quantity else 0) + totalQ l pid item rarity := by
  by_cases h : stackMatches pid item rarity r
  · simp [totalQ, List.filter_cons, h]
  · simp [totalQ, List.filter_cons, h]

theorem totalQ_append {a b : List Inventory} {pid item : String} {rarity : Nat} :
    totalQ (a ++ b) pid item rarity = totalQ a pid item rarity + totalQ b pid item rarity := by
  simp [totalQ, List.filter_append]

/-- The wrapped `u32` sum agrees with the mathematical sum when the latter
fits in 32 bits. -/
theorem sumU32_eq_sum {l : List Inventory}
    (h : (l.map (fun r => r.quantity)).sum < 4294967296) :
    sumU32 l = (l.map (fun r => r.quantity)).sum := by
  suffices H : ∀ (l : List Inventory) (acc : Nat),
      acc + (l.map (fun r => r.quantity)).sum < 4294967296 →
      l.foldl (fun a r => w32 (a + r.quantity)) acc = acc + (l.map (fun r => r.quantity)).sum by
    simpa using H l 0 (by simpa using h)
  intro l
  induction l with
  | nil => intro acc _; simp
  | cons r t ih =>
    intro acc hacc
    simp only [List.map_cons, List.sum_cons] at hacc ⊢
    rw [List.foldl_cons, w32_eq_of_lt (by omega), ih (acc + r.quantity) (by omega)]
    omega

/-- The sum of the matching snapshot is the total. -/
theorem sum_matchingStacks {s : GameState} {pid item : String} {rarity : Nat} :
    ((matchingStacks s pid item rarity).map (fun r => r.quantity)).sum =
      totalOwned s pid item rarity := rfl

/-- Ids are preserved by a primary-key update. -/
theorem ids_updateInvById {l : List Inventory} {r2 : Inventory} :
    (updateInvById l r2).map (fun r => r.id) = l.map (fun r => r.id) := by
  induction l with
  | nil => rfl
  | cons a t ih =>
    simp only [updateInvById, List.map_cons] at ih ⊢
    by_cases h : a.id = r2.id
    · simp [h, ih]
    · simp [h, ih]

/-- A primary-key delete keeps the id list a sublist. -/
theorem ids_deleteInvById_sublist {l : List Inventory} {rid : Nat} :
    ((deleteInvById l rid).map (fun r => r.id)).Sublist (l.map (fun r => r.id)) :=
  (List.filter_sublist l).map _

/-- A primary-key update leaves a list untouched when the id is absent. -/
theorem updateInvById_of_not_mem {l : List Inventory} {r2 : Inventory}
    (h : r2.id ∉ l.map (fun r => r.id)) : updateInvById l r2 = l := by
  induction l with
  | nil => rfl
  | cons a t ih =>
    simp only [List.map_cons, List.mem_cons] at h
    push_neg at h
    simp only [updateInvById, List.map_cons] at ih ⊢
    rw [if_neg (by intro hh; exact h.1 hh.symm), ih h.2]

/-- A primary-key delete leaves a list untouched when the id is absent. -/
theorem deleteInvById_of_not_mem {l : List Inventory} {rid : Nat}
    (h : rid ∉ l.map (fun r => r.id)) : deleteInvById l rid = l := by
  induction l with
  | nil => rfl
  | cons a t ih =>
    simp only [List.map_cons, List.mem_cons] at h
    push_neg at h
    simp only [deleteInvById, List.filter_cons] at ih ⊢
    rw [if_pos (by simp; exact fun hh => h.1 hh.symm), ih h.2]

/-- Deleting a present matching row removes exactly its quantity. -/
theorem totalQ_delete {l : List Inventory} {r : Inventory} {pid item : String} {rarity : Nat}
    (hnd : (l.map (fun x => x.id)).Nodup) (hr : r ∈ l)
    (hm : stackMatches pid item rarity r = true) :
    totalQ (deleteInvById l r.id) pid item rarity + r.quantity = totalQ l pid item rarity := by
  induction l with
  | nil => cases hr
  | cons a t ih =>
    simp only [List.map_cons, List.nodup_cons] at hnd
    rcases List.mem_cons.mp hr with rfl | hrt
    · have ht : deleteInvById (r :: t) r.id = t := by
        simp only [deleteInvById, List.filter_cons]
        rw [if_neg (by simp)]
        have : ∀ x ∈ t, x.id ≠ r.id := by
          intro x hx hxid
          exact hnd.1 (hxid ▸ List.mem_map_of_mem (fun y => y.id) hx)
        exact List.filter_eq_self.mpr (by intro x hx; simpa using this x hx)
      rw [ht, totalQ_cons, if_pos hm]
      omega
    · have haid : a.id ≠ r.id := by
        intro h
        exact hnd.1 (h ▸ List.mem_map_of_mem (fun y => y.id) hrt)
      have : deleteInvById (a :: t) r.id = a :: deleteInvById t r.id := by
        simp only [deleteInvById, List.filter_cons]
        rw [if_pos (by simpa using haid)]
      rw [this, totalQ_cons, totalQ_cons]
      have := ih hnd.2 hrt
      omega

/-- Updating a present matching row to a same-key row exchanges exactly
the quantities. -/
theorem totalQ_update {l : List Inventory} {r r2 : Inventory} {pid item : String} {rarity : Nat}
    (hnd : (l.map (fun x => x.id)).Nodup) (hr : r ∈ l)
    (hid : r2.id = r.id)
    (hm : stackMatches pid item rarity r = true)
    (hm2 : stackMatches pid item rarity r2 = true) :
    totalQ (updateInvById l r2) pid item rarity + r.quantity =
      totalQ l pid item rarity + r2.quantity := by
  induction l with
  | nil => cases hr
  | cons a t ih =>
    simp only [List.map_cons, List.nodup_cons] at hnd
    rcases List.mem_cons.mp hr with rfl | hrt
    · have ht : updateInvById (r :: t) r2 = r2 :: t := by
        simp only [updateInvById, List.map_cons]
        rw [if_pos hid.symm]
        congr 1
        exact updateInvById_of_not_mem (by rw [hid]; exact hnd.1)
      rw [ht, totalQ_cons, totalQ_cons, if_pos hm, if_pos hm2]
      omega
    · have haid : a.id ≠ r.id := by
        intro h
        exact hnd.1 (h ▸ List.mem_map_of_mem (fun y => y.id) hrt)
      have : updateInvById (a :: t) r2 = a :: updateInvById t r2 := by
        simp only [updateInvById, List.map_cons]
        rw [if_neg (by rw [hid]; exact haid)]
      rw [this, totalQ_cons, totalQ_cons]
      have := ih hnd.2 hrt
      omega

/-- The consumption loop with nothing left to remove does nothing. -/
theorem removeLoop_zero {inv : List Inventory} {stackList : List Inventory} :
    removeLoop inv stackList 0 = inv := by
  cases stackList <;> simp [removeLoop]

/-- A quantity change does not affect the matching key. -/
theorem stackMatches_set_quantity {pid item : String} {rarity q : Nat} {r : Inventory} :
    stackMatches pid item rarity { r with quantity := q } = stackMatches pid item rarity r := by
  simp [stackMatches]

/-- Master lemma for the consumption loop shared by
`remove_from_inventory` and `sell_item`: consuming `remaining` units over
a duplicate-free snapshot of present matching stacks removes exactly
`remaining` from the total and preserves primary-key uniqueness. -/
theorem removeLoop_spec {pid item : String} {rarity : Nat} :
    ∀ (stackList inv : List Inventory) (remaining : Nat),
      ((inv.map (fun x => x.id)).Nodup) →
      (∀ st ∈ stackList, st ∈ inv) →
      (∀ st ∈ stackList, stackMatches pid item rarity st = true) →
      ((stackList.map (fun x => x.id)).Nodup) →
      remaining ≤ (stackList.map (fun x => x.quantity)).sum →
      totalQ (removeLoop inv stackList remaining) pid item rarity + remaining =
          totalQ inv pid item rarity
        ∧ ((removeLoop inv stackList remaining).map (fun x => x.id)).Nodup := by
  intro stackList
  induction stackList with
  | nil =>
    intro inv remaining hnd _ _ _ hle
    simp only [List.map_nil, List.sum_nil, Nat.le_zero] at hle
    subst hle
    exact ⟨by simp [removeLoop], by simpa [removeLoop] using hnd⟩
  | cons stack rest ih =>
    intro inv remaining hnd hmem hmatch hsnd hle
    by_cases h0 : remaining = 0
    · subst h0
      exact ⟨by simp [removeLoop], by simpa [removeLoop] using hnd⟩
    · simp only [List.map_cons, List.nodup_cons, List.map_cons, List.sum_cons] at hsnd hle
      have hstackmem : stack ∈ inv := hmem stack (List.mem_cons_self _ _)
      have hstackmatch : stackMatches pid item rarity stack = true :=
        hmatch stack (List.mem_cons_self _ _)
      rw [removeLoop, if_neg h0]
      simp only []
      by_cases hq : stack.quantity ≤ min remaining stack.quantity
      · -- the whole stack is consumed and the row deleted
        have hqr : stack.quantity ≤ remaining := by omega
        have htr : min remaining stack.quantity = stack.quantity := by omega
        rw [if_pos hq, htr]
        have hdel := totalQ_delete hnd hstackmem hstackmatch
        have hnd2 : ((deleteInvById inv stack.id).map (fun x => x.id)).Nodup :=
          hnd.sublist ids_deleteInvById_sublist
        have hmem2 : ∀ st ∈ rest, st ∈ deleteInvById inv stack.id := by
          intro st hst
          have hid : st.id ≠ stack.id := by
            intro h
            exact hsnd.1 (h ▸ List.mem_map_of_mem (fun y => y.id) hst)
          exact List.mem_filter.mpr ⟨hmem st (List.mem_cons_of_mem _ hst), by simpa using hid⟩
        have hmatch2 : ∀ st ∈ rest, stackMatches pid item rarity st = true :=
          fun st hst => hmatch st (List.mem_cons_of_mem _ hst)
        have hle2 : remaining - stack.quantity ≤ (rest.map (fun x => x.quantity)).sum := by omega
        obtain ⟨ih1, ih2⟩ := ih (deleteInvById inv stack.id) (remaining - stack.quantity)
          hnd2 hmem2 hmatch2 hsnd.2 hle2
        exact ⟨by omega, ih2⟩
      · -- the stack is only decremented and the loop stops
        have hqr : remaining < stack.quantity := by omega
        have htr : min remaining stack.quantity = remaining := by omega
        rw [if_neg hq, htr, Nat.sub_self, removeLoop_zero]
        have hupd : totalQ (updateInvById inv
              { stack with quantity := stack.quantity - remaining }) pid item rarity +
              stack.quantity =
            totalQ inv pid item rarity + (stack.quantity - remaining) :=
          totalQ_update hnd hstackmem rfl hstackmatch
            (by rw [stackMatches_set_quantity]; exact hstackmatch)
        have hnd2 : ((updateInvById inv
            { stack with quantity := stack.quantity - remaining }).map (fun x => x.id)).Nodup := by
          rw [ids_updateInvById]; exact hnd
        exact ⟨by omega, hnd2⟩

/-- An empty matching snapshot means a zero total. -/
theorem totalOwned_of_matching_empty {s : GameState} {pid item : String} {rarity : Nat}
    (h : (matchingStacks s pid item rarity).isEmpty) : totalOwned s pid item rarity = 0 := by
  rw [List.isEmpty_iff] at h
  unfold totalOwned totalQ
  rw [show s.inventory.filter (stackMatches pid item rarity) = matchingStacks s pid item rarity from rfl, h]
  rfl

/-- The matching snapshot inherits id uniqueness and membership. -/
theorem matchingStacks_sub {s : GameState} {pid item : String} {rarity : Nat} :
    (∀ st ∈ matchingStacks s pid item rarity, st ∈ s.inventory)
    ∧ (∀ st ∈ matchingStacks s pid item rarity, stackMatches pid item rarity st = true)
    ∧ (((s.inventory.map (fun x => x.id)).Nodup) →
        ((matchingStacks s pid item rarity).map (fun x => x.id)).Nodup) := by
  refine ⟨fun st hst => (List.mem_filter.mp hst).1,
    fun st hst => (List.mem_filter.mp hst).2,
    fun hnd => hnd.sublist ((List.filter_sublist _).map _)⟩

/-! ## C3: the ledger remove fails closed and conserves -/
/-- C3. `remove_from_inventory` with quantity 0 is a no-op success; a
request exceeding the total of all matching stacks mutates nothing
(conservation on rejection); and a satisfiable request consumes stacks in
enumeration order (the `removeLoop` definition) so that the total drops
by exactly the requested quantity.  Hypotheses: inventory primary keys
are unique, and the true total fits in `u32` (so the wrapping sum in the
source equals it). -/
theorem claim_C3_remove_conservation :
    ∀ (s : GameState) (pid item : String) (rarity quantity : Nat),
      ((s.inventory.map (fun x => x.id)).Nodup) →
      totalOwned s pid item rarity < 4294967296 →
      (quantity = 0 → remove_from_inventory s pid item rarity quantity = s)
      ∧ (totalOwned s pid item rarity < quantity →
          remove_from_inventory s pid item rarity quantity = s)
      ∧ (quantity ≤ totalOwned s pid item rarity →
          totalOwned (remove_from_inventory s pid item rarity quantity) pid item rarity
              + quantity =
            totalOwned s pid item rarity) := by
  intro s pid item rarity quantity hnd hfit
  have hsum : sumU32 (matchingStacks s pid item rarity) = totalOwned s pid item rarity :=
    sumU32_eq_sum (by rw [sum_matchingStacks]; exact hfit)
  refine ⟨fun h0 => by simp [remove_from_inventory, h0], fun hlt => ?_, fun hge => ?_⟩
  · have h0 : quantity ≠ 0 := by omega
    rw [remove_from_inventory, if_neg h0]
    by_cases hemp : (matchingStacks s pid item rarity).isEmpty
    · rw [if_pos hemp]
    · rw [if_neg hemp, if_pos (by omega)]
  · by_cases h0 : quantity = 0
    · subst h0
      rw [remove_from_inventory]
      simp
    · rw [remove_from_inventory, if_neg h0]
      by_cases hemp : (matchingStacks s pid item rarity).isEmpty
      · have := totalOwned_of_matching_empty hemp
        omega
      · rw [if_neg hemp, if_neg (by omega)]
        obtain ⟨hmem, hmatch, hndm⟩ := @matchingStacks_sub s pid item rarity
        have := removeLoop_spec (matchingStacks s pid item rarity) s.inventory quantity
          hnd hmem hmatch (hndm hnd) (by rw [sum_matchingStacks]; exact hge)
        exact this.1

/-- Witness for C3: a player holding stacks of 2 and 3 of the same key;
removing 6 is rejected, removing 4 leaves a total of 1. -/
theorem claim_C3_remove_conservation_witness :
    ((([{ id := 1, player_id := "p", item_id := "fish_pond_1", rarity := 1, quantity := 2 },
        { id := 2, player_id := "p", item_id := "fish_pond_1", rarity := 1, quantity := 3 }] :
          List Inventory).map (fun x => x.id)).Nodup
      ∧ totalOwned
          { players := [], inventory :=
              [{ id := 1, player_id := "p", item_id := "fish_pond_1", rarity := 1, quantity := 2 },
               { id := 2, player_id := "p", item_id := "fish_pond_1", rarity := 1, quantity := 3 }],
            player_stats := [], quests := [], player_quests := [], nextInvId := 3, nextPqId := 1 }
          "p" "fish_pond_1" 1 < 4294967296)
    ∧ remove_from_inventory
        { players := [], inventory :=
            [{ id := 1, player_id := "p", item_id := "fish_pond_1", rarity := 1, quantity := 2 },
             { id := 2, player_id := "p", item_id := "fish_pond_1", rarity := 1, quantity := 3 }],
          player_stats := [], quests := [], player_quests := [], nextInvId := 3, nextPqId := 1 }
        "p" "fish_pond_1" 1 6 =
      { players := [], inventory :=
          [{ id := 1, player_id := "p", item_id := "fish_pond_1", rarity := 1, quantity := 2 },
           { id := 2, player_id := "p", item_id := "fish_pond_1", rarity := 1, quantity := 3 }],
        player_stats := [], quests := [], player_quests := [], nextInvId := 3, nextPqId := 1 }
    ∧ totalOwned
        (remove_from_inventory
          { players := [], inventory :=
              [{ id := 1, player_id := "p", item_id := "fish_pond_1", rarity := 1, quantity := 2 },
               { id := 2, player_id := "p", item_id := "fish_pond_1", rarity := 1, quantity := 3 }],
            player_stats := [], quests := [], player_quests := [], nextInvId := 3, nextPqId := 1 }
          "p" "fish_pond_1" 1 4)
        "p" "fish_pond_1" 1 + 4 =
      totalOwned
        { players := [], inventory :=
            [{ id := 1, player_id := "p", item_id := "fish_pond_1", rarity := 1, quantity := 2 },
             { id := 2, player_id := "p", item_id := "fish_pond_1", rarity := 1, quantity := 3 }],
          player_stats := [], quests := [], player_quests := [], nextInvId := 3, nextPqId := 1 }
        "p" "fish_pond_1" 1 :=
  ⟨⟨by decide, by decide⟩,
   (claim_C3_remove_conservation _ "p" "fish_pond_1" 1 6 (by decide) (by decide)).2.1 (by decide),
   (claim_C3_remove_conservation _ "p" "fish_pond_1" 1 4 (by decide) (by decide)).2.2 (by decide)⟩

/-- After updating the found player's row, the find returns the new row. -/
theorem find?_updatePlayerById {l : List Player} {pid : String} {p p2 : Player}
    (hf : l.find? (fun r => decide (r.id = pid)) = some p) (hid : p2.id = p.id) :
    (updatePlayerById l p2).find? (fun r => decide (r.id = pid)) = some p2 := by
  have hpid : p.id = pid := by simpa using List.find?_some hf
  induction l with
  | nil => simp at hf
  | cons a t ih =>
    by_cases ha : a.id = pid
    · rw [List.find?_cons_of_pos _ (by simpa using ha)] at hf
      injection hf with hf
      subst hf
      have : updatePlayerById (a :: t) p2 = p2 :: updatePlayerById t p2 := by
        simp only [updatePlayerById, List.map_cons]
        rw [if_pos hid.symm]
      rw [this]
      exact List.find?_cons_of_pos _ (by simp [hid, hpid])
    · rw [List.find?_cons_of_neg _ (by simpa using ha)] at hf
      have : updatePlayerById (a :: t) p2 = a :: updatePlayerById t p2 := by
        simp only [updatePlayerById, List.map_cons]
        rw [if_neg (by rw [hid, hpid]; exact ha)]
      rw [this, List.find?_cons_of_neg _ (by simpa using ha)]
      exact ih hf

/-! ## C2: sell_item semantics -/
/-- C2. `sell_item` is a strict no-op when the quantity is 0, when the
item is the player's currently equipped pole, or when the player owns
fewer than requested; otherwise the player's total of that key drops by
exactly the quantity and the player's gold rises by exactly
`quantity * sellPrice(item, rarity)`.  Hypotheses: unique inventory
primary keys and `u32`-sized totals/credits (so the wrapping arithmetic
in the source is exact). -/
theorem claim_C2_sell_item :
    ∀ (s : GameState) (pid item : String) (rarity quantity : Nat),
      ((s.inventory.map (fun x => x.id)).Nodup) →
      totalOwned s pid item rarity < 4294967296 →
      (quantity = 0 → sell_item s pid item rarity quantity = s)
      ∧ (∀ p, findPlayer s pid = some p → is_pole_item item = true →
          p.equipped_pole_id = some item → sell_item s pid item rarity quantity = s)
      ∧ (totalOwned s pid item rarity < quantity → sell_item s pid item rarity quantity = s)
      ∧ (∀ p, findPlayer s pid = some p → quantity ≠ 0 →
          ¬(is_pole_item item = true ∧ p.equipped_pole_id = some item) →
          quantity ≤ totalOwned s pid item rarity →
          calculate_sell_price item rarity * quantity < 4294967296 →
          p.gold + calculate_sell_price item rarity * quantity < 4294967296 →
          totalOwned (sell_item s pid item rarity quantity) pid item rarity + quantity =
              totalOwned s pid item rarity
            ∧ findPlayer (sell_item s pid item rarity quantity) pid =
              some { p with gold := p.gold + calculate_sell_price item rarity * quantity }) := by
  intro s pid item rarity quantity hnd hfit
  have hsum : sumU32 (matchingStacks s pid item rarity) = totalOwned s pid item rarity :=
    sumU32_eq_sum (by rw [sum_matchingStacks]; exact hfit)
  refine ⟨fun h0 => by simp [sell_item, h0], ?_, ?_, ?_⟩
  · intro p hf hpole heq
    by_cases h0 : quantity = 0
    · simp [sell_item, h0]
    · rw [sell_item, if_neg h0, if_pos (by rw [hf]; simp [hpole, heq])]
  · intro hlt
    by_cases h0 : quantity = 0
    · omega
    · rw [sell_item, if_neg h0]
      split
      · rfl
      · simp only []
        rw [hsum, if_pos hlt]
  · intro p hf hq0 hpole hle hmul hgold
    have hguard : (is_pole_item item &&
        (match findPlayer s pid with
         | some p => decide (p.equipped_pole_id = some item)
         | none => false)) = false := by
      rw [hf]
      cases hpi : is_pole_item item
      · rfl
      · simp only [Bool.true_and, decide_eq_false_iff_not]
        intro hcontra
        exact hpole ⟨hpi, hcontra⟩
    rw [sell_item, if_neg hq0, if_neg (by rw [hguard]; simp)]
    simp only []
    rw [hsum, if_neg (by omega)]
    obtain ⟨hmem, hmatch, hndm⟩ := @matchingStacks_sub s pid item rarity
    obtain ⟨hrl, _⟩ := removeLoop_spec (matchingStacks s pid item rarity) s.inventory quantity
      hnd hmem hmatch (hndm hnd) (by rw [sum_matchingStacks]; exact hle)
    have hf1 : findPlayer
        { s with inventory := removeLoop s.inventory (matchingStacks s pid item rarity) quantity }
        pid = some p := hf
    rw [hf1]
    simp only []
    rw [w32_eq_of_lt hmul, w32_eq_of_lt hgold]
    split
    · constructor
      · exact hrl
      · exact find?_updatePlayerById hf rfl
    · constructor
      · exact hrl
      · exact find?_updatePlayerById hf rfl

/-- Witness for C2 on the spec's sell-validation scenario: selling 5 is
rejected outright; selling 3 empties the key and credits exactly
`3 * sellPrice(fish_pond_1, 1) = 30` gold. -/
theorem claim_C2_sell_item_witness :
    (((sellScenarioState.inventory.map (fun x => x.id)).Nodup)
      ∧ totalOwned sellScenarioState "p" "fish_pond_1" 1 < 4294967296
      ∧ totalOwned sellScenarioState "p" "fish_pond_1" 1 < 5)
    ∧ sell_item sellScenarioState "p" "fish_pond_1" 1 5 = sellScenarioState
    ∧ (totalOwned (sell_item sellScenarioState "p" "fish_pond_1" 1 3) "p" "fish_pond_1" 1 + 3 =
        totalOwned sellScenarioState "p" "fish_pond_1" 1
      ∧ findPlayer (sell_item sellScenarioState "p" "fish_pond_1" 1 3) "p" =
        some { id := "p", gold := 100 + calculate_sell_price "fish_pond_1" 1 * 3,
               equipped_pole_id := none }) :=
  ⟨⟨by decide, by decide, by decide⟩,
   (claim_C2_sell_item sellScenarioState "p" "fish_pond_1" 1 5 (by decide) (by decide)).2.2.1
     (by decide),
   (claim_C2_sell_item sellScenarioState "p" "fish_pond_1" 1 3 (by decide) (by decide)).2.2.2
     { id := "p", gold := 100, equipped_pole_id := none } (by decide) (by decide)
     (by decide) (by decide) (by decide) (by decide)⟩

/-- `findPlayer` only reads the player table. -/
theorem findPlayer_congr {x y : GameState} {pid : String} (h : x.players = y.players) :
    findPlayer x pid = findPlayer y pid := by
  simp [findPlayer, h]

/-- `totalOwned` only reads the inventory table. -/
theorem totalOwned_congr {x y : GameState} {pid item : String} {rarity : Nat}
    (h : x.inventory = y.inventory) :
    totalOwned x pid item rarity = totalOwned y pid item rarity := by
  simp [totalOwned, h]

/-- A freshly inserted matching stack raises the total by its quantity. -/
theorem totalOwned_insertInv {s : GameState} {pid item : String} {rarity q : Nat} :
    totalOwned (insertInv s pid item rarity q) pid item rarity =
      totalOwned s pid item rarity + q := by
  unfold totalOwned insertInv totalQ
  rw [List.filter_append]
  simp [stackMatches]

/-- The gold-spent bookkeeping step of `buy_item` leaves the player and
inventory tables untouched. -/
theorem buySpendStep_tables (s1 : GameState) (pid : String) (price : Nat) :
    (buySpendStep s1 pid price).players = s1.players
    ∧ (buySpendStep s1 pid price).inventory = s1.inventory := by
  unfold buySpendStep
  constructor
  · split
    · split <;> rfl
    · rfl
  · split
    · split <;> rfl
    · rfl

/-- The item-granting step of `buy_item` adds exactly one unit of the item
at rarity 0 and leaves the player table untouched. -/
theorem buyGrantStep_spec (s2 : GameState) (pid item : String)
    (hnd : (s2.inventory.map (fun x => x.id)).Nodup) :
    (buyGrantStep s2 pid item).players = s2.players
    ∧ totalOwned (buyGrantStep s2 pid item) pid item 0 = totalOwned s2 pid item 0 + 1 := by
  unfold buyGrantStep
  simp only []
  split
  · exact ⟨rfl, totalOwned_insertInv⟩
  · split
    · next row heq =>
      refine ⟨rfl, ?_⟩
      have hrowmem : row ∈ s2.inventory := List.mem_of_find?_eq_some heq
      have hrowp : nonFullStack pid item 0 (get_max_stack_size item) row = true :=
        List.find?_some heq
      simp only [nonFullStack, decide_eq_true_eq] at hrowp
      have hm : stackMatches pid item 0 row = true := by
        simp [stackMatches, hrowp.1, hrowp.2.1, hrowp.2.2.1]
      have hq : totalQ (updateInvById s2.inventory { row with quantity := row.quantity + 1 })
            pid item 0 + row.quantity =
          totalQ s2.inventory pid item 0 +
            ({ row with quantity := row.quantity + 1 } : Inventory).quantity :=
        totalQ_update hnd hrowmem rfl hm (by rw [stackMatches_set_quantity]; exact hm)
      have hd : ({ row with quantity := row.quantity + 1 } : Inventory).quantity =
          row.quantity + 1 := rfl
      unfold totalOwned
      simp only []
      omega
    · exact ⟨rfl, totalOwned_insertInv⟩

/-! ## C5: buy_item semantics -/
/-- C5. `buy_item` is a strict no-op when the price is 0 and the item is
not the free starter pole, when the player row is missing, or when the
player cannot afford the price; otherwise it debits exactly the price and
adds exactly one unit of the item at rarity 0.  The hypothesis is unique
inventory primary keys. -/
theorem claim_C5_buy_item :
    ∀ (s : GameState) (pid item : String),
      ((s.inventory.map (fun x => x.id)).Nodup) →
      (get_item_buy_price item = 0 ∧ item ≠ "pole_1" → buy_item s pid item = s)
      ∧ (findPlayer s pid = none → buy_item s pid item = s)
      ∧ (∀ p, findPlayer s pid = some p → p.gold < get_item_buy_price item →
          buy_item s pid item = s)
      ∧ (∀ p, findPlayer s pid = some p →
          ¬(get_item_buy_price item = 0 ∧ item ≠ "pole_1") →
          get_item_buy_price item ≤ p.gold →
          findPlayer (buy_item s pid item) pid =
              some { p with gold := p.gold - get_item_buy_price item }
            ∧ totalOwned (buy_item s pid item) pid item 0 =
              totalOwned s pid item 0 + 1) := by
  intro s pid item hnd
  refine ⟨fun h => by rw [buy_item, if_pos h], ?_, ?_, ?_⟩
  · intro hnone
    rw [buy_item]
    split
    · rfl
    · rw [hnone]
  · intro p hf hlt
    rw [buy_item]
    split
    · rfl
    · rw [hf]
      simp only []
      rw [if_pos hlt]
  · intro p hf hpr hcan
    rw [buy_item, if_neg hpr, hf]
    simp only []
    rw [if_neg (by omega)]
    have hsp := buySpendStep_tables
      { s with players := updatePlayerById s.players { p with gold := p.gold - get_item_buy_price item } }
      pid (get_item_buy_price item)
    have hnd2 : ((buySpendStep
        { s with players := updatePlayerById s.players { p with gold := p.gold - get_item_buy_price item } }
        pid (get_item_buy_price item)).inventory.map (fun x => x.id)).Nodup := by
      rw [hsp.2]
      exact hnd
    obtain ⟨hgp, hgt⟩ := buyGrantStep_spec _ pid item hnd2
    constructor
    · rw [findPlayer_congr hgp, findPlayer_congr hsp.1]
      exact find?_updatePlayerById hf rfl
    · rw [hgt, totalOwned_congr hsp.2]
      exact congrArg (fun n => n + 1) (totalOwned_congr rfl)

/-- Witness for C5: the spec's insufficient-funds scenario (100 gold,
`pole_2` at price 200, rejected unchanged) plus a successful purchase of
`lure_1` at price 20. -/
theorem claim_C5_buy_item_witness :
    ((sellScenarioState.inventory.map (fun x => x.id)).Nodup
      ∧ (findPlayer sellScenarioState "p" =
          some { id := "p", gold := 100, equipped_pole_id := none })
      ∧ (Player.mk "p" 100 none).gold < get_item_buy_price "pole_2")
    ∧ buy_item sellScenarioState "p" "pole_2" = sellScenarioState
    ∧ (findPlayer (buy_item sellScenarioState "p" "lure_1") "p" =
        some { id := "p", gold := 100 - get_item_buy_price "lure_1", equipped_pole_id := none }
      ∧ totalOwned (buy_item sellScenarioState "p" "lure_1") "p" "lure_1" 0 =
        totalOwned sellScenarioState "p" "lure_1" 0 + 1) :=
  ⟨⟨by decide, by decide, by decide⟩,
   (claim_C5_buy_item sellScenarioState "p" "pole_2" (by decide)).2.2.1
     (Player.mk "p" 100 none) (by decide) (by decide),
   (claim_C5_buy_item sellScenarioState "p" "lure_1" (by decide)).2.2.2
     (Player.mk "p" 100 none) (by decide) (by decide) (by decide)⟩

/-- Capacity is always positive. -/
theorem get_max_stack_size_pos (item : String) : 1 ≤ get_max_stack_size item := by
  unfold get_max_stack_size
  split
  · exact Nat.le_refl 1
  · split
    · norm_num [MAX_FISH_STACK_SIZE]
    · norm_num

theorem InvBounds_update {l : List Inventory} {row : Inventory}
    (h : InvBounds l) (hr : stackBoundsOk row) : InvBounds (updateInvById l row) := by
  intro r hrm
  obtain ⟨x, hx, hfx⟩ := List.mem_map.mp hrm
  by_cases hid : x.id = row.id
  · rw [if_pos hid] at hfx
    exact hfx ▸ hr
  · rw [if_neg hid] at hfx
    exact hfx ▸ h x hx

theorem InvBounds_delete {l : List Inventory} {rid : Nat}
    (h : InvBounds l) : InvBounds (deleteInvById l rid) :=
  fun r hrm => h r (List.mem_filter.mp hrm).1

theorem InvBounds_append {a b : List Inventory}
    (ha : InvBounds a) (hb : InvBounds b) : InvBounds (a ++ b) := by
  intro r hr
  rcases List.mem_append.mp hr with h | h
  · exact ha r h
  · exact hb r h

/-- The top-up loop keeps every stack within bounds and does not change
the id list. -/
theorem addLoopAux_wf {pid item : String} {rarity : Nat} :
    ∀ (fuel : Nat) (inv : List Inventory) (remaining : Nat),
      InvBounds inv →
      InvBounds (addLoopAux fuel inv pid item rarity (get_max_stack_size item) remaining).1
      ∧ ((addLoopAux fuel inv pid item rarity (get_max_stack_size item) remaining).1.map
          (fun x => x.id)) = inv.map (fun x => x.id) := by
  intro fuel
  induction fuel with
  | zero => intro inv remaining h; exact ⟨h, rfl⟩
  | succ fuel ih =>
    intro inv remaining h
    rw [addLoopAux]
    by_cases h0 : remaining = 0
    · rw [if_pos h0]; exact ⟨h, rfl⟩
    · rw [if_neg h0]
      cases hfind : inv.find? (nonFullStack pid item rarity (get_max_stack_size item)) with
      | none => exact ⟨h, rfl⟩
      | some row =>
        simp only []
        have hmemrow : row ∈ inv := List.mem_of_find?_eq_some hfind
        have hprow : nonFullStack pid item rarity (get_max_stack_size item) row = true :=
          List.find?_some hfind
        simp only [nonFullStack, decide_eq_true_eq] at hprow
        have hbrow := h row hmemrow
        set toAdd := min remaining (get_max_stack_size item - row.quantity) with htoAdd
        have hrow2 : stackBoundsOk { row with quantity := row.quantity + toAdd } := by
          constructor
          · have := hbrow.1
            show 1 ≤ row.quantity + toAdd
            omega
          · show row.quantity + toAdd ≤ get_max_stack_size row.item_id
            rw [hprow.2.1]
            have := hprow.2.2.2
            omega
        obtain ⟨ih1, ih2⟩ := ih (updateInvById inv { row with quantity := row.quantity + toAdd })
          (remaining - toAdd) (InvBounds_update h hrow2)
        exact ⟨ih1, by rw [ih2, ids_updateInvById]⟩

/-- The new-stack loop produces only rows of the added item, with
quantities in `[1, capacity]` and fresh, strictly increasing ids at or
above the starting counter (and a final counter bounding them all). -/
theorem mkStacksAux_wf {pid item : String} {rarity : Nat} :
    ∀ (fuel nextId remaining : Nat),
      InvBounds (mkStacksAux fuel nextId pid item rarity (get_max_stack_size item) remaining).1
      ∧ nextId ≤ (mkStacksAux fuel nextId pid item rarity (get_max_stack_size item) remaining).2
      ∧ (∀ r ∈ (mkStacksAux fuel nextId pid item rarity (get_max_stack_size item) remaining).1,
          nextId ≤ r.id ∧
            r.id < (mkStacksAux fuel nextId pid item rarity (get_max_stack_size item) remaining).2)
      ∧ (((mkStacksAux fuel nextId pid item rarity
            (get_max_stack_size item) remaining).1.map (fun x => x.id)).Nodup) := by
  intro fuel
  induction fuel with
  | zero =>
    intro nextId remaining
    exact ⟨fun r hr => absurd hr (List.not_mem_nil r), Nat.le_refl _, fun r hr => absurd hr (List.not_mem_nil r), List.nodup_nil⟩
  | succ fuel ih =>
    intro nextId remaining
    rw [mkStacksAux]
    by_cases h0 : remaining = 0
    · rw [if_pos h0]
      exact ⟨fun r hr => absurd hr (List.not_mem_nil r), Nat.le_refl _,
        fun r hr => absurd hr (List.not_mem_nil r), List.nodup_nil⟩
    · rw [if_neg h0]
      simp only []
      obtain ⟨ih1, ih2, ih3, ih4⟩ := ih (nextId + 1)
        (remaining - min remaining (get_max_stack_size item))
      have hmax := get_max_stack_size_pos item
      refine ⟨?_, by omega, ?_, ?_⟩
      · intro r hr
        rcases List.mem_cons.mp hr with rfl | hrt
        · constructor
          · simp only []; omega
          · simp only []
            omega
        · exact ih1 r hrt
      · intro r hr
        rcases List.mem_cons.mp hr with rfl | hrt
        · simp only []
          have := ih2
          omega
        · have := ih3 r hrt
          omega
      · rw [List.map_cons]
        refine List.nodup_cons.mpr ⟨?_, ih4⟩
        intro hmem
        obtain ⟨x, hx, hfx⟩ := List.mem_map.mp hmem
        have := ih3 x hx
        simp only [] at hfx
        omega

/-- The consumption loop never grows the id list. -/
theorem removeLoop_ids_sublist :
    ∀ (stackList inv : List Inventory) (remaining : Nat),
      (((removeLoop inv stackList remaining).map (fun x => x.id)).Sublist
        (inv.map (fun x => x.id))) := by
  intro stackList
  induction stackList with
  | nil => intro inv remaining; exact List.Sublist.refl _
  | cons stack rest ih =>
    intro inv remaining
    rw [removeLoop]
    by_cases h0 : remaining = 0
    · rw [if_pos h0]
    · rw [if_neg h0]
      simp only []
      by_cases hq : stack.quantity ≤ min remaining stack.quantity
      · rw [if_pos hq]
        exact (ih _ _).trans ids_deleteInvById_sublist
      · rw [if_neg hq]
        have h2 := ih (updateInvById inv
          { stack with quantity := stack.quantity - min remaining stack.quantity })
          (remaining - min remaining stack.quantity)
        rw [ids_updateInvById] at h2
        exact h2

/-- The consumption loop keeps every stack within bounds (hypotheses as
in `removeLoop_spec`, minus the sum bound which bounds do not need). -/
theorem removeLoop_bounds :
    ∀ (stackList inv : List Inventory) (remaining : Nat),
      ((inv.map (fun x => x.id)).Nodup) →
      (∀ st ∈ stackList, st ∈ inv) →
      ((stackList.map (fun x => x.id)).Nodup) →
      InvBounds inv →
      InvBounds (removeLoop inv stackList remaining) := by
  intro stackList
  induction stackList with
  | nil => intro inv remaining _ _ _ hb; exact hb
  | cons stack rest ih =>
    intro inv remaining hnd hmem hsnd hb
    rw [removeLoop]
    by_cases h0 : remaining = 0
    · rw [if_pos h0]; exact hb
    · rw [if_neg h0]
      simp only []
      simp only [List.map_cons, List.nodup_cons] at hsnd
      have hstackmem : stack ∈ inv := hmem stack (List.mem_cons_self _ _)
      by_cases hq : stack.quantity ≤ min remaining stack.quantity
      · rw [if_pos hq]
        refine ih (deleteInvById inv stack.id) _ (hnd.sublist ids_deleteInvById_sublist)
          ?_ hsnd.2 (InvBounds_delete hb)
        intro st hst
        have hid : st.id ≠ stack.id := by
          intro h
          exact hsnd.1 (h ▸ List.mem_map_of_mem (fun y => y.id) hst)
        exact List.mem_filter.mpr ⟨hmem st (List.mem_cons_of_mem _ hst), by simpa using hid⟩
      · rw [if_neg hq]
        have hqr : min remaining stack.quantity = remaining := by omega
        have hrow2 : stackBoundsOk
            { stack with quantity := stack.quantity - min remaining stack.quantity } := by
          have := (hb stack hstackmem).2
          constructor
          · show 1 ≤ stack.quantity - min remaining stack.quantity
            omega
          · show stack.quantity - min remaining stack.quantity ≤
              get_max_stack_size stack.item_id
            omega
        rw [hqr, Nat.sub_self, removeLoop_zero]
        rw [hqr] at hrow2
        exact InvBounds_update hb hrow2

theorem StateWF_of_invPart_eq {x y : GameState} (h : invPart x = invPart y)
    (hy : StateWF y) : StateWF x := by
  unfold invPart at h
  obtain ⟨h1, h2, h3⟩ : x.inventory = y.inventory ∧ x.nextInvId = y.nextInvId ∧
      x.quests = y.quests := by
    simpa [Prod.ext_iff] using h
  unfold StateWF
  rw [h1, h2]
  exact hy

theorem QuestsWF_of_invPart_eq {x y : GameState} (h : invPart x = invPart y)
    (hy : QuestsWF y) : QuestsWF x := by
  unfold invPart at h
  obtain ⟨h1, h2, h3⟩ : x.inventory = y.inventory ∧ x.nextInvId = y.nextInvId ∧
      x.quests = y.quests := by
    simpa [Prod.ext_iff] using h
  unfold QuestsWF
  rw [h3]
  exact hy

theorem invPart_add_xp_internal {s : GameState} {pid : String} {a : Nat} :
    invPart (add_xp_internal s pid a) = invPart s := by
  unfold add_xp_internal
  split <;> rfl

theorem invPart_update_quest_progress {s : GameState} {pid item : String} {rarity : Nat} :
    invPart (update_quest_progress_for_fish s pid item rarity) = invPart s := rfl

theorem invPart_accept_quest_insert {s : GameState} {quest : Quest} {pid qid : String} :
    invPart (accept_quest_insert s quest pid qid) = invPart s := by
  unfold accept_quest_insert
  simp only []
  split <;> rfl

theorem invPart_accept_quest {s : GameState} {pid qid : String} :
    invPart (accept_quest s pid qid) = invPart s := by
  unfold accept_quest
  split
  · rfl
  · split
    · split
      · rfl
      · split
        · rfl
        · split
          · rw [invPart_accept_quest_insert]
            rfl
          · rw [invPart_accept_quest_insert]
    · rw [invPart_accept_quest_insert]

theorem invPart_buySpendStep {s : GameState} {pid : String} {price : Nat} :
    invPart (buySpendStep s pid price) = invPart s := by
  unfold buySpendStep
  split
  · split <;> rfl
  · rfl

theorem insertInv_unfold {s : GameState} {pid item : String} {rarity q : Nat} :
    (insertInv s pid item rarity q).inventory = s.inventory ++ [freshRow s pid item rarity q]
    ∧ (insertInv s pid item rarity q).nextInvId = s.nextInvId + 1
    ∧ (insertInv s pid item rarity q).quests = s.quests := ⟨rfl, rfl, rfl⟩

/-- An insertion of a bounded fresh stack preserves well-formedness. -/
theorem insertInv_wf {s : GameState} {pid item : String} {rarity q : Nat}
    (hwf : StateWF s) (h1 : 1 ≤ q) (h2 : q ≤ get_max_stack_size item) :
    StateWF (insertInv s pid item rarity q)
    ∧ (insertInv s pid item rarity q).quests = s.quests := by
  obtain ⟨hb, hnd, hfr⟩ := hwf
  obtain ⟨hinv, hnid, hq⟩ :=
    @insertInv_unfold s pid item rarity q
  refine ⟨⟨?_, ?_, ?_⟩, hq⟩
  · rw [hinv]
    refine InvBounds_append hb ?_
    intro r hr
    rw [List.mem_singleton] at hr
    subst hr
    exact ⟨h1, h2⟩
  · rw [hinv, List.map_append, List.nodup_append]
    refine ⟨hnd, by simp, ?_⟩
    intro i hi hicon
    obtain ⟨r, hr, hrid⟩ := List.mem_map.mp hi
    have hlt := hfr r hr
    have hid2 : (freshRow s pid item rarity q).id = s.nextInvId := rfl
    simp only [List.map_cons, List.map_nil, List.mem_singleton] at hicon
    omega
  · intro r hr
    rw [hinv] at hr
    rw [hnid]
    rcases List.mem_append.mp hr with h | h
    · have := hfr r h
      omega
    · rw [List.mem_singleton] at h
      subst h
      have hid2 : (freshRow s pid item rarity q).id = s.nextInvId := rfl
      omega

/-- Fresh ids stay fresh along an id-sublist. -/
theorem fresh_of_ids_sublist {a b : List Inventory} {n : Nat}
    (hs : (a.map (fun x => x.id)).Sublist (b.map (fun x => x.id)))
    (hf : ∀ r ∈ b, r.id < n) : ∀ r ∈ a, r.id < n := by
  intro r hr
  have : r.id ∈ b.map (fun x => x.id) :=
    hs.subset (List.mem_map_of_mem (fun x => x.id) hr)
  obtain ⟨r0, hr0, hr0id⟩ := List.mem_map.mp this
  have := hf r0 hr0
  omega

/-- The consumption-loop state keeps the structural invariant. -/
theorem removeLoop_state_wf {s : GameState} {pid item : String} {rarity q : Nat}
    (hwf : StateWF s) :
    StateWF { s with inventory := removeLoop s.inventory (matchingStacks s pid item rarity) q } := by
  obtain ⟨hb, hnd, hfr⟩ := hwf
  obtain ⟨hmem, hmatch, hndm⟩ := @matchingStacks_sub s pid item rarity
  refine ⟨?_, ?_, ?_⟩
  · exact removeLoop_bounds _ _ _ hnd hmem (hndm hnd) hb
  · exact hnd.sublist (removeLoop_ids_sublist _ _ _)
  · exact fresh_of_ids_sublist (removeLoop_ids_sublist _ _ _) hfr

/-- Topping up a found non-full stack by one keeps the invariant. -/
theorem topup_wf {s : GameState} {pid item : String} {rarity : Nat} {row : Inventory}
    (hwf : StateWF s)
    (heq : s.inventory.find? (nonFullStack pid item rarity (get_max_stack_size item)) = some row) :
    StateWF { s with inventory := updateInvById s.inventory { row with quantity := row.quantity + 1 } } := by
  obtain ⟨hb, hnd, hfr⟩ := hwf
  have hrowmem : row ∈ s.inventory := List.mem_of_find?_eq_some heq
  have hprow : nonFullStack pid item rarity (get_max_stack_size item) row = true :=
    List.find?_some heq
  simp only [nonFullStack, decide_eq_true_eq] at hprow
  have hrow2 : stackBoundsOk { row with quantity := row.quantity + 1 } := by
    have := (hb row hrowmem).1
    constructor
    · show 1 ≤ row.quantity + 1
      omega
    · show row.quantity + 1 ≤ get_max_stack_size row.item_id
      rw [hprow.2.1]
      have := hprow.2.2.2
      omega
  refine ⟨InvBounds_update hb hrow2, ?_, ?_⟩
  · show ((updateInvById s.inventory { row with quantity := row.quantity + 1 }).map
      (fun x => x.id)).Nodup
    rw [ids_updateInvById]
    exact hnd
  · intro r hr
    show r.id < s.nextInvId
    have : r.id ∈ (updateInvById s.inventory
        { row with quantity := row.quantity + 1 }).map (fun x => x.id) :=
      List.mem_map_of_mem (fun x => x.id) hr
    rw [ids_updateInvById] at this
    obtain ⟨r0, hr0, hr0id⟩ := List.mem_map.mp this
    have := hfr r0 hr0
    omega

/-- One reward-object grant preserves the invariant when the parsed
quantity is positive (or no item is granted). -/
theorem grantRewardItem_wf {pid : String} {st : GameState} {b : List Char}
    (hwf : StateWF st)
    (hq : ((parse_item_reward b).1.isNone || decide (1 ≤ (parse_item_reward b).2)) = true) :
    StateWF (grantRewardItem pid st b) ∧ (grantRewardItem pid st b).quests = st.quests := by
  unfold grantRewardItem
  cases hp : parse_item_reward b with
  | mk fst snd =>
    cases fst with
    | none => exact ⟨hwf, rfl⟩
    | some itemId =>
      rw [hp] at hq
      simp only [Option.isNone_some, Bool.false_or, decide_eq_true_eq] at hq
      exact insertInv_wf hwf (by have := get_max_stack_size_pos itemId; omega)
        (Nat.min_le_right _ _)

/-- The reward-item fold preserves the invariant. -/
theorem grant_fold_wf {pid : String} :
    ∀ (blocks : List (List Char)) (s : GameState),
      StateWF s →
      (∀ b ∈ blocks,
        ((parse_item_reward b).1.isNone || decide (1 ≤ (parse_item_reward b).2)) = true) →
      StateWF (blocks.foldl (grantRewardItem pid) s)
      ∧ (blocks.foldl (grantRewardItem pid) s).quests = s.quests := by
  intro blocks
  induction blocks with
  | nil => intro s hwf _; exact ⟨hwf, rfl⟩
  | cons b rest ih =>
    intro s hwf hall
    obtain ⟨h1, h2⟩ := grantRewardItem_wf hwf (hall b (List.mem_cons_self _ _))
    obtain ⟨h3, h4⟩ := ih (grantRewardItem pid s b) h1
      (fun x hx => hall x (List.mem_cons_of_mem _ hx))
    exact ⟨h3, by rw [List.foldl_cons, h4, h2]⟩

/-- The gold credit leaves the inventory facet untouched. -/
theorem invPart_grantGoldStep {s : GameState} {pid : String} {rewards : List Char} :
    invPart (grantGoldStep s pid rewards) = invPart s := by
  unfold grantGoldStep
  split
  · split <;> rfl
  · rfl

/-- `grant_quest_rewards` preserves the invariant for a well-formed
rewards document. -/
theorem grant_quest_rewards_wf {s : GameState} {pid : String} {rewards : List Char}
    (hwf : StateWF s) (hrw : rewardsWF rewards = true) :
    StateWF (grant_quest_rewards s pid rewards)
    ∧ (grant_quest_rewards s pid rewards).quests = s.quests := by
  unfold grant_quest_rewards
  have hall : ∀ b ∈ rewardItemBlocks rewards,
      ((parse_item_reward b).1.isNone || decide (1 ≤ (parse_item_reward b).2)) = true := by
    intro b hb
    exact List.all_eq_true.mp hrw b hb
  have hq : (grantGoldStep s pid rewards).quests = s.quests := by
    have h := @invPart_grantGoldStep s pid rewards
    unfold invPart at h
    have h2 := congrArg (fun t => t.2.2) h
    simpa using h2
  obtain ⟨hg1, hg2⟩ := grant_fold_wf (rewardItemBlocks rewards) _
    (StateWF_of_invPart_eq invPart_grantGoldStep hwf) hall
  exact ⟨hg1, by rw [hg2, hq]⟩

theorem quests_eq_of_invPart {x y : GameState} (h : invPart x = invPart y) :
    x.quests = y.quests :=
  congrArg (fun t => t.2.2) h

theorem QuestsWF_of_quests_eq {x y : GameState} (h : x.quests = y.quests)
    (hy : QuestsWF y) : QuestsWF x := by
  unfold QuestsWF
  rw [h]
  exact hy

theorem invPart_catchStatsStep {s1 : GameState} {pid : String} :
    invPart (catchStatsStep s1 pid) = invPart s1 := by
  unfold catchStatsStep
  split <;> rfl

/-- The unfolded tables of `add_to_inventory`. -/
theorem add_to_inventory_unfold {s : GameState} {pid item : String} {rarity quantity : Nat} :
    (add_to_inventory s pid item rarity quantity).inventory =
      (addLoopAux (quantity + 1) s.inventory pid item rarity
          (get_max_stack_size item) quantity).1 ++
        (mkStacksAux
          ((addLoopAux (quantity + 1) s.inventory pid item rarity
              (get_max_stack_size item) quantity).2 + 1)
          s.nextInvId pid item rarity (get_max_stack_size item)
          (addLoopAux (quantity + 1) s.inventory pid item rarity
              (get_max_stack_size item) quantity).2).1
    ∧ (add_to_inventory s pid item rarity quantity).nextInvId =
      (mkStacksAux
        ((addLoopAux (quantity + 1) s.inventory pid item rarity
            (get_max_stack_size item) quantity).2 + 1)
        s.nextInvId pid item rarity (get_max_stack_size item)
        (addLoopAux (quantity + 1) s.inventory pid item rarity
            (get_max_stack_size item) quantity).2).2
    ∧ (add_to_inventory s pid item rarity quantity).quests = s.quests :=
  ⟨rfl, rfl, rfl⟩

/-- `add_to_inventory` preserves the invariant. -/
theorem add_to_inventory_wf {s : GameState} {pid item : String} {rarity quantity : Nat}
    (hwf : StateWF s) :
    StateWF (add_to_inventory s pid item rarity quantity)
    ∧ (add_to_inventory s pid item rarity quantity).quests = s.quests := by
  obtain ⟨hb, hnd, hfr⟩ := hwf
  obtain ⟨hfb, hfi⟩ := addLoopAux_wf (quantity + 1) s.inventory quantity hb
  obtain ⟨hcb, hcn, hcm, hcnd⟩ := mkStacksAux_wf
    ((addLoopAux (quantity + 1) s.inventory pid item rarity
      (get_max_stack_size item) quantity).2 + 1)
    s.nextInvId
    (addLoopAux (quantity + 1) s.inventory pid item rarity (get_max_stack_size item) quantity).2
  obtain ⟨hu1, hu2, hu3⟩ := @add_to_inventory_unfold s pid item rarity quantity
  refine ⟨⟨?_, ?_, ?_⟩, hu3⟩
  · rw [hu1]
    exact InvBounds_append hfb hcb
  · rw [hu1, List.map_append, List.nodup_append, hfi]
    refine ⟨hnd, hcnd, ?_⟩
    intro i hi hicon
    obtain ⟨r, hr, hrid⟩ := List.mem_map.mp hi
    obtain ⟨r2, hr2, hr2id⟩ := List.mem_map.mp hicon
    have h1 := hfr r hr
    have h2 := (hcm r2 hr2).1
    omega
  · intro r hr
    rw [hu1] at hr
    rw [hu2]
    rcases List.mem_append.mp hr with h | h
    · have hid : r.id ∈ s.inventory.map (fun x => x.id) := by
        rw [← hfi]
        exact List.mem_map_of_mem (fun x => x.id) h
      obtain ⟨r0, hr0, hr0id⟩ := List.mem_map.mp hid
      have := hfr r0 hr0
      omega
    · exact (hcm r h).2

/-- `remove_from_inventory` preserves the invariant. -/
theorem remove_from_inventory_wf {s : GameState} {pid item : String} {rarity quantity : Nat}
    (hwf : StateWF s) :
    StateWF (remove_from_inventory s pid item rarity quantity)
    ∧ (remove_from_inventory s pid item rarity quantity).quests = s.quests := by
  unfold remove_from_inventory
  split
  · exact ⟨hwf, rfl⟩
  · simp only []
    split
    · exact ⟨hwf, rfl⟩
    · split
      · exact ⟨hwf, rfl⟩
      · exact ⟨removeLoop_state_wf hwf, rfl⟩

/-- `sell_item` preserves the invariant. -/
theorem sell_item_wf {s : GameState} {pid item : String} {rarity quantity : Nat}
    (hwf : StateWF s) :
    StateWF (sell_item s pid item rarity quantity)
    ∧ (sell_item s pid item rarity quantity).quests = s.quests := by
  unfold sell_item
  split
  · exact ⟨hwf, rfl⟩
  · split
    · exact ⟨hwf, rfl⟩
    · simp only []
      split
      · exact ⟨hwf, rfl⟩
      · have hs1 := @removeLoop_state_wf s pid item rarity quantity hwf
        split
        · split
          · exact ⟨⟨hs1.1, hs1.2.1, hs1.2.2⟩, rfl⟩
          · exact ⟨⟨hs1.1, hs1.2.1, hs1.2.2⟩, rfl⟩
        · exact ⟨hs1, rfl⟩

/-- The grant step of `buy_item` preserves the invariant. -/
theorem buyGrantStep_wf {s2 : GameState} {pid item : String}
    (hwf : StateWF s2) :
    StateWF (buyGrantStep s2 pid item) ∧ (buyGrantStep s2 pid item).quests = s2.quests := by
  unfold buyGrantStep
  simp only []
  split
  · exact insertInv_wf hwf (Nat.le_refl 1) (get_max_stack_size_pos item)
  · split
    · next row heq => exact ⟨topup_wf hwf heq, rfl⟩
    · exact insertInv_wf hwf (Nat.le_refl 1) (get_max_stack_size_pos item)

/-- `buy_item` preserves the invariant. -/
theorem buy_item_wf {s : GameState} {pid item : String} (hwf : StateWF s) :
    StateWF (buy_item s pid item) ∧ (buy_item s pid item).quests = s.quests := by
  unfold buy_item
  simp only []
  split
  · exact ⟨hwf, rfl⟩
  · split
    · exact ⟨hwf, rfl⟩
    · next p hp =>
      split
      · exact ⟨hwf, rfl⟩
      · have hwf1 : StateWF { s with players := updatePlayerById s.players { p with gold := p.gold - get_item_buy_price item } } :=
          ⟨hwf.1, hwf.2.1, hwf.2.2⟩
        have hwf2 : StateWF (buySpendStep { s with players := updatePlayerById s.players { p with gold := p.gold - get_item_buy_price item } } pid (get_item_buy_price item)) :=
          StateWF_of_invPart_eq invPart_buySpendStep hwf1
        obtain ⟨hg1, hg2⟩ := buyGrantStep_wf hwf2
        refine ⟨hg1, ?_⟩
        rw [hg2, quests_eq_of_invPart invPart_buySpendStep]

/-- `catch_fish` preserves the invariant. -/
theorem catch_fish_wf {s : GameState} {pid item : String} {rarity : Nat}
    (hwf : StateWF s) :
    StateWF (catch_fish s pid item rarity)
    ∧ (catch_fish s pid item rarity).quests = s.quests := by
  unfold catch_fish
  simp only []
  have hchain : ∀ s1 : GameState,
      invPart (update_quest_progress_for_fish
        (add_xp_internal (catchStatsStep s1 pid) pid (calculate_fish_xp item rarity))
        pid item rarity) = invPart s1 :=
    fun s1 => (invPart_update_quest_progress.trans invPart_add_xp_internal).trans
      invPart_catchStatsStep
  split
  · next row heq =>
    have hS1 := topup_wf hwf heq
    refine ⟨StateWF_of_invPart_eq (hchain _) hS1, ?_⟩
    exact (quests_eq_of_invPart (hchain _)).trans rfl
  · have hS1 := @insertInv_wf s pid item rarity 1 hwf (Nat.le_refl 1) (get_max_stack_size_pos item)
    refine ⟨StateWF_of_invPart_eq (hchain _) hS1.1, ?_⟩
    exact (quests_eq_of_invPart (hchain _)).trans hS1.2

/-- `complete_quest` preserves the invariant for well-formed quest
rewards. -/
theorem complete_quest_wf {s : GameState} {pid qid : String}
    (hwf : StateWF s) (hq : QuestsWF s) :
    StateWF (complete_quest s pid qid) ∧ (complete_quest s pid qid).quests = s.quests := by
  unfold complete_quest
  split
  · exact ⟨hwf, rfl⟩
  · next pq hpq =>
    split
    · exact ⟨hwf, rfl⟩
    · next quest hquest =>
      split
      · simp only []
        have hqw : rewardsWF quest.rewards = true :=
          hq quest (List.mem_of_find?_eq_some hquest)
        have hwf1 : StateWF
            { s with player_quests := updatePqById s.player_quests { pq with status := "completed" } } :=
          ⟨hwf.1, hwf.2.1, hwf.2.2⟩
        obtain ⟨hg1, hg2⟩ := grant_quest_rewards_wf hwf1 hqw
        refine ⟨StateWF_of_invPart_eq invPart_add_xp_internal hg1, ?_⟩
        rw [quests_eq_of_invPart invPart_add_xp_internal, hg2]
      · exact ⟨hwf, rfl⟩

/-- Each operation preserves the invariant and the quest table. -/
theorem applyOp_wf {s : GameState} {o : Op} (hwf : StateWF s) (hq : QuestsWF s) :
    StateWF (applyOp s o) ∧ QuestsWF (applyOp s o) := by
  cases o with
  | addInv pid item rarity quantity =>
    obtain ⟨h1, h2⟩ := @add_to_inventory_wf s pid item rarity quantity hwf
    exact ⟨h1, QuestsWF_of_quests_eq h2 hq⟩
  | removeInv pid item rarity quantity =>
    obtain ⟨h1, h2⟩ := @remove_from_inventory_wf s pid item rarity quantity hwf
    exact ⟨h1, QuestsWF_of_quests_eq h2 hq⟩
  | catchFishOp pid item rarity =>
    obtain ⟨h1, h2⟩ := @catch_fish_wf s pid item rarity hwf
    exact ⟨h1, QuestsWF_of_quests_eq h2 hq⟩
  | buyItemOp pid item =>
    obtain ⟨h1, h2⟩ := @buy_item_wf s pid item hwf
    exact ⟨h1, QuestsWF_of_quests_eq h2 hq⟩
  | sellItemOp pid item rarity quantity =>
    obtain ⟨h1, h2⟩ := @sell_item_wf s pid item rarity quantity hwf
    exact ⟨h1, QuestsWF_of_quests_eq h2 hq⟩
  | acceptQuestOp pid qid =>
    exact ⟨StateWF_of_invPart_eq invPart_accept_quest hwf,
      QuestsWF_of_quests_eq (quests_eq_of_invPart invPart_accept_quest) hq⟩
  | completeQuestOp pid qid =>
    obtain ⟨h1, h2⟩ := @complete_quest_wf s pid qid hwf hq
    exact ⟨h1, QuestsWF_of_quests_eq h2 hq⟩
  | addXpOp pid amount =>
    exact ⟨StateWF_of_invPart_eq invPart_add_xp_internal hwf,
      QuestsWF_of_quests_eq (quests_eq_of_invPart invPart_add_xp_internal) hq⟩

/-- Any operation sequence preserves the invariant. -/
theorem applyOps_wf {ops : List Op} :
    ∀ {s : GameState}, StateWF s → QuestsWF s →
      StateWF (applyOps s ops) ∧ QuestsWF (applyOps s ops) := by
  induction ops with
  | nil => intro s hwf hq; exact ⟨hwf, hq⟩
  | cons o rest ih =>
    intro s hwf hq
    obtain ⟨h1, h2⟩ := @applyOp_wf s o hwf hq
    exact ih h1 h2

/-- C1 (counterexample to the claim as stated): from an empty, well-formed
inventory, accepting and completing a quest whose rewards document says
`quantity: 0` leaves an InventoryStack row with quantity 0 - the claimed
invariant `1 ≤ quantity` fails on a state reached by core operations
alone. -/
theorem claim_C1_stack_bounds_counterexample :
    zeroRewardState.inventory = []
    ∧ StateWF zeroRewardState
    ∧ QuestsWF zeroRewardState = False
    ∧ ¬ (∀ r ∈ (applyOps zeroRewardState zeroRewardOps).inventory,
          1 ≤ r.quantity ∧ r.quantity ≤ get_max_stack_size r.item_id) := by
  refine ⟨rfl, by decide, ?_, ?_⟩
  · simp only [eq_iff_iff, iff_false]
    intro h
    have := h zeroRewardQuest (by decide)
    exact absurd this (by decide)
  · intro h
    have := h { id := 1, player_id := "p", item_id := "lure_1", rarity := 0, quantity := 0 }
      (by decide)
    exact absurd this.1 (by decide)

/-- C1 (amended). For every starting state with a well-formed inventory
table (bounds hold, primary keys unique and below the counter) and a
quest table whose reward documents only grant positive quantities, every
state reached by any sequence of the core operations (add, remove, catch,
buy, sell, accept, complete, XP grant) keeps every InventoryStack row at
`1 ≤ quantity ≤ capacity(item_id)`; the amendment is the positive-reward
proviso, forced by the counterexample above (a `quantity: 0` reward
object inserts a zero-quantity stack). -/
theorem claim_C1_stack_bounds_amended :
    ∀ (ops : List Op) (s0 : GameState),
      StateWF s0 → QuestsWF s0 →
      ∀ r ∈ (applyOps s0 ops).inventory,
        1 ≤ r.quantity ∧ r.quantity ≤ get_max_stack_size r.item_id := by
  intro ops s0 hwf hq r hr
  exact (applyOps_wf hwf hq).1.1 r hr

/-- Witness for the amended C1 on a concrete state and operation list. -/
theorem claim_C1_stack_bounds_amended_witness :
    (StateWF sellScenarioState ∧ QuestsWF sellScenarioState)
    ∧ (∀ r ∈ (applyOps sellScenarioState boundsWitnessOps).inventory,
        1 ≤ r.quantity ∧ r.quantity ≤ get_max_stack_size r.item_id) :=
  ⟨⟨by decide, by decide⟩,
   claim_C1_stack_bounds_amended boundsWitnessOps sellScenarioState (by decide) (by decide)⟩

/-- An `accept_quest_insert` call that leaves the fresh-id counter
unchanged did not take the insert branch, so it returns its input. -/
theorem accept_quest_insert_no_insert {s : GameState} {quest : Quest} {pid qid : String}
    (h : (accept_quest_insert s quest pid qid).nextPqId = s.nextPqId) :
    accept_quest_insert s quest pid qid = s := by
  revert h
  unfold accept_quest_insert
  simp only []
  split
  · intro h
    exfalso
    simp only [] at h
    omega
  · intro h
    rfl

/-- C4 (counterexample to the claim as stated): from the reachable state
`sC4`, `accept_quest "pl" "q1"` inserts no row (the fresh-id counter is
unchanged) yet the state differs - the completed daily row for `q1` was
deleted before the prerequisite rejection, so a rejected call mutated
the PlayerQuest table. -/
theorem claim_C4_accept_atomicity_counterexample :
    applyOps s0C4 opsC4 = sC4
    ∧ (accept_quest sC4 "pl" "q1").nextPqId = sC4.nextPqId
    ∧ accept_quest sC4 "pl" "q1" ≠ sC4
    ∧ sC4.player_quests.length = 2
    ∧ (accept_quest sC4 "pl" "q1").player_quests.length = 1 :=
  ⟨rfl, by decide, by decide, by decide, by decide⟩

/-- C4 (amended). An `accept_quest` call that does not insert a row
(the fresh-id counter is unchanged) either leaves the state exactly
unchanged, or - the one exception, forced by the counterexample above -
the player had a completed row for this daily quest and the call\x27s only
mutation is deleting that row: the delete-then-check-prerequisite order
makes the completed-daily-row deletion survive a prerequisite
rejection. -/
theorem claim_C4_accept_atomicity_amended (s : GameState) (pid qid : String)
    (h : (accept_quest s pid qid).nextPqId = s.nextPqId) :
    accept_quest s pid qid = s
    ∨ ∃ pq ∈ s.player_quests,
        pq.player_id = pid ∧ pq.quest_id = qid ∧ pq.status = "completed"
        ∧ (∃ q ∈ s.quests, q.id = qid ∧ q.quest_type = "daily")
        ∧ accept_quest s pid qid =
            { s with player_quests :=
                s.player_quests.filter (fun r => decide (r.id ≠ pq.id)) } := by
  unfold accept_quest at h ⊢
  revert h
  cases hfq : findQuest s qid with
  | none =>
    intro _
    exact Or.inl rfl
  | some quest =>
    intro h
    have hfq2 : s.quests.find? (fun q => decide (q.id = qid)) = some quest := hfq
    have hqmem : quest ∈ s.quests := List.mem_of_find?_eq_some hfq2
    have hqid2 := @List.find?_some Quest (fun q : Quest => decide (q.id = qid)) quest s.quests hfq2
    have hqid : quest.id = qid := of_decide_eq_true hqid2
    simp only [] at h ⊢
    revert h
    cases hfind : s.player_quests.find?
        (fun pq => decide (pq.player_id = pid ∧ pq.quest_id = qid)) with
    | none =>
      intro h
      simp only [] at h ⊢
      exact Or.inl (accept_quest_insert_no_insert h)
    | some pq =>
      intro h
      have hpqmem : pq ∈ s.player_quests := List.mem_of_find?_eq_some hfind
      have hpq2 := @List.find?_some PlayerQuest
        (fun pq : PlayerQuest => decide (pq.player_id = pid ∧ pq.quest_id = qid))
        pq s.player_quests hfind
      have hpq : pq.player_id = pid ∧ pq.quest_id = qid := of_decide_eq_true hpq2
      simp only [] at h ⊢
      by_cases hact : pq.status = "active"
      · rw [if_pos hact]
        exact Or.inl rfl
      · rw [if_neg hact] at h ⊢
        by_cases hstory : pq.status = "completed" ∧ quest.quest_type = "story"
        · rw [if_pos hstory]
          exact Or.inl rfl
        · rw [if_neg hstory] at h ⊢
          by_cases hdaily : pq.status = "completed" ∧ quest.quest_type = "daily"
          · rw [if_pos hdaily] at h ⊢
            have he := accept_quest_insert_no_insert h
            rw [he]
            exact Or.inr ⟨pq, hpqmem, hpq.1, hpq.2, hdaily.1,
              ⟨quest, hqmem, hqid, hdaily.2⟩, rfl⟩
          · rw [if_neg hdaily] at h ⊢
            exact Or.inl (accept_quest_insert_no_insert h)

/-- Witness for the amended C4: accepting an unknown quest inserts
nothing and leaves the state unchanged. -/
theorem claim_C4_accept_atomicity_amended_witness :
    (accept_quest s0C4 "pl" "zz").nextPqId = s0C4.nextPqId
    ∧ (accept_quest s0C4 "pl" "zz" = s0C4
      ∨ ∃ pq ∈ s0C4.player_quests,
          pq.player_id = "pl" ∧ pq.quest_id = "zz" ∧ pq.status = "completed"
          ∧ (∃ q ∈ s0C4.quests, q.id = "zz" ∧ q.quest_type = "daily")
          ∧ accept_quest s0C4 "pl" "zz" =
              { s0C4 with player_quests :=
                  s0C4.player_quests.filter (fun r => decide (r.id ≠ pq.id)) }) :=
  ⟨by decide, claim_C4_accept_atomicity_amended s0C4 "pl" "zz" (by decide)⟩

/-- With zero XP the level-up loop exits immediately. -/
theorem levelUpLoop_zero_xp (l next : Nat) : levelUpLoop l 0 next = (l, 0, next) := by
  rw [levelUpLoop.eq_def]
  rw [dif_neg (by omega : ¬ (next ≤ 0 ∧ 0 < next))]

/-- Loop invariant of `levelUpLoop`: a positive in-range level with a
coherent cached threshold stays in range with a coherent threshold, and
on exit the residue is below the threshold or the threshold is zero. -/
theorem levelUpLoop_inv : ∀ (xp level next : Nat),
    1 ≤ level → level < 4294967296 →
    next = calculate_xp_for_level (w32 (level + 1)) →
    1 ≤ (levelUpLoop level xp next).1
    ∧ (levelUpLoop level xp next).1 < 4294967296
    ∧ (levelUpLoop level xp next).2.2
        = calculate_xp_for_level (w32 ((levelUpLoop level xp next).1 + 1))
    ∧ ((levelUpLoop level xp next).2.1 < (levelUpLoop level xp next).2.2
      ∨ (levelUpLoop level xp next).2.2 = 0) := by
  intro xp
  induction xp using Nat.strong_induction_on with
  | _ xp ih =>
    intro level next h1 h2 h3
    rw [levelUpLoop.eq_def]
    by_cases hc : next ≤ xp ∧ 0 < next
    · rw [dif_pos hc]
      simp only []
      have hpos : 0 < calculate_xp_for_level (w32 (level + 1)) := h3 ▸ hc.2
      have h2le : 2 ≤ w32 (level + 1) := by
        by_contra hlt
        push_neg at hlt
        rw [calculate_xp_for_level_le_one (by omega)] at hpos
        omega
      have hlt32 : w32 (level + 1) < 4294967296 := Nat.mod_lt _ (by norm_num)
      exact ih (xp - next) (by omega) (w32 (level + 1)) _ (by omega) hlt32 rfl
    · rw [dif_neg hc]
      refine ⟨h1, h2, h3, ?_⟩
      show xp < next ∨ next = 0
      omega

/-- `add_xp_stats` keeps the level positive and in `u32` range, keeps
the cached threshold coherent, and always leaves the residue below the
threshold or the threshold zero. -/
theorem add_xp_stats_inv (st : PlayerStats) (a : Nat)
    (h1 : 1 ≤ st.level) (h2 : st.level < 4294967296)
    (h3 : st.xp_to_next_level = calculate_xp_for_level (w32 (st.level + 1))) :
    1 ≤ (add_xp_stats st a).level
    ∧ (add_xp_stats st a).level < 4294967296
    ∧ (add_xp_stats st a).xp_to_next_level
        = calculate_xp_for_level (w32 ((add_xp_stats st a).level + 1))
    ∧ ((add_xp_stats st a).xp < (add_xp_stats st a).xp_to_next_level
      ∨ (add_xp_stats st a).xp_to_next_level = 0) := by
  unfold add_xp_stats
  simp only []
  rw [if_neg (by omega : ¬ st.level = 0)]
  exact levelUpLoop_inv (w64 (st.xp + a)) st.level st.xp_to_next_level h1 h2 h3

/-- The invariant of `add_xp_stats_inv` carried through any grant
sequence. -/
theorem applyGrants_inv (grants : List Nat) :
    ∀ st : PlayerStats, 1 ≤ st.level → st.level < 4294967296 →
    st.xp_to_next_level = calculate_xp_for_level (w32 (st.level + 1)) →
    (st.xp < st.xp_to_next_level ∨ st.xp_to_next_level = 0) →
    1 ≤ (applyGrants st grants).level
    ∧ (applyGrants st grants).level < 4294967296
    ∧ (applyGrants st grants).xp_to_next_level
        = calculate_xp_for_level (w32 ((applyGrants st grants).level + 1))
    ∧ ((applyGrants st grants).xp < (applyGrants st grants).xp_to_next_level
      ∨ (applyGrants st grants).xp_to_next_level = 0) := by
  induction grants with
  | nil => intro st h1 h2 h3 h4; exact ⟨h1, h2, h3, h4⟩
  | cons a tl ih =>
    intro st h1 h2 h3 _
    obtain ⟨g1, g2, g3, g4⟩ := add_xp_stats_inv st a h1 h2 h3
    exact ih (add_xp_stats st a) g1 g2 g3 g4

/-- A ramp grant on a coherent zero-residue row levels up exactly once
and leaves a zero residue again. -/
theorem add_xp_stats_ramp (st : PlayerStats)
    (h1 : 1 ≤ st.level) (h2 : st.level + 1 < 4294967296) (hx : st.xp = 0)
    (h3 : st.xp_to_next_level = calculate_xp_for_level (st.level + 1)) :
    add_xp_stats st (calculate_xp_for_level (st.level + 1)) =
      { st with level := st.level + 1, xp := 0, xp_to_next_level := calculate_xp_for_level (w32 (st.level + 2)) } := by
  unfold add_xp_stats
  simp only []
  rw [if_neg (by omega : ¬ st.level = 0)]
  rw [hx, h3, Nat.zero_add]
  rw [w64_eq_of_lt (calculate_xp_for_level_lt_u64 (by omega))]
  rw [levelUpLoop.eq_def]
  rw [dif_pos ⟨Nat.le_refl _, calculate_xp_for_level_pos (by omega)⟩]
  simp only []
  rw [Nat.sub_self]
  rw [w32_eq_of_lt h2]
  rw [levelUpLoop_zero_xp]

/-- After the first n ramp grants the row is at level n+1 with zero
residue and the (possibly wrapped) next threshold cached. -/
theorem ramp_spec (pid : String) : ∀ n : Nat, n + 2 ≤ 4294967296 →
    applyGrants (start_session_new_stats pid) (rampGrants n) =
      { player_id := pid, total_sessions := 1, total_fish_caught := 0,
        total_gold_earned := 0, total_gold_spent := 0,
        level := n + 1, xp := 0,
        xp_to_next_level := calculate_xp_for_level (w32 (n + 2)) } := by
  intro n
  induction n with
  | zero =>
    intro _
    rfl
  | succ m ih =>
    intro h
    have hm := ih (by omega)
    have hr : rampGrants (m + 1) = rampGrants m ++ [calculate_xp_for_level (m + 2)] := by
      unfold rampGrants
      rw [List.range_succ, List.map_append]
      rfl
    have happ : applyGrants (start_session_new_stats pid) (rampGrants (m + 1))
        = applyGrants (applyGrants (start_session_new_stats pid) (rampGrants m))
            [calculate_xp_for_level (m + 2)] := by
      rw [hr]
      unfold applyGrants
      rw [List.foldl_append]
    rw [happ, hm]
    rw [w32_eq_of_lt (show m + 2 < 4294967296 by omega)]
    exact add_xp_stats_ramp
      { player_id := pid, total_sessions := 1, total_fish_caught := 0,
        total_gold_earned := 0, total_gold_spent := 0,
        level := m + 1, xp := 0, xp_to_next_level := calculate_xp_for_level (m + 2) }
      (by show 1 ≤ m + 1; omega) (by show m + 1 + 1 < 4294967296; omega) rfl rfl

/-- `add_xp_stats` never changes the row's player id. -/
theorem add_xp_stats_player_id (st : PlayerStats) (a : Nat) :
    (add_xp_stats st a).player_id = st.player_id := by
  unfold add_xp_stats
  simp only []
  split <;> rfl

/-- `add_xp_internal` on a single-row stats table is exactly the
`add_xp_stats` row transformation. -/
theorem add_xp_internal_single (s : GameState) (st : PlayerStats) (a : Nat)
    (hs : s.player_stats = [st]) (h : st.player_id = "pl") :
    add_xp_internal s "pl" a = { s with player_stats := [add_xp_stats st a] } := by
  unfold add_xp_internal findStats
  rw [hs]
  have hfind : List.find? (fun st2 : PlayerStats => decide (st2.player_id = "pl")) [st]
      = some st := by
    rw [List.find?_cons_of_pos]
    simp [h]
  rw [hfind]
  simp only []
  unfold updateStatsById
  simp only [List.map]
  rw [if_pos (add_xp_stats_player_id st a).symm]

/-- Folding `add_xp` reducer calls over a single-row stats table is the
row-level grant fold. -/
theorem applyOps_addXp (gs : List Nat) : ∀ (s : GameState) (st : PlayerStats),
    s.player_stats = [st] → st.player_id = "pl" →
    applyOps s (gs.map (Op.addXpOp "pl"))
      = { s with player_stats := [applyGrants st gs] } := by
  induction gs with
  | nil =>
    intro s st hs h
    show s = _
    rw [show [applyGrants st ([] : List Nat)] = [st] from rfl, ← hs]
  | cons a tl ih =>
    intro s st hs h
    show applyOps (add_xp_internal s "pl" a) (tl.map (Op.addXpOp "pl")) = _
    rw [add_xp_internal_single s st a hs h]
    exact ih _ (add_xp_stats st a) rfl ((add_xp_stats_player_id st a).trans h)

/-- C10 (counterexample to the claim as stated): starting from the
engine-created row (level 1, xp 0, threshold xpForLevel 2) and granting,
at each level l, exactly the cached threshold xpForLevel(l+1) through
the add_xp reducer, after 4294967294 grants the level reaches the u32
boundary 4294967295; there the cached threshold is
calculate_xp_for_level(w32 4294967296) = calculate_xp_for_level 0 = 0,
so the claimed residue invariant xp < xpToNextLevel is false. -/
theorem claim_C10_xp_residue_counterexample :
    (applyOps rampState (rampOps rampLen)).player_stats
      = [{ player_id := "pl", total_sessions := 1, total_fish_caught := 0,
           total_gold_earned := 0, total_gold_spent := 0,
           level := 4294967295, xp := 0, xp_to_next_level := 0 }]
    ∧ ¬ (∀ st ∈ (applyOps rampState (rampOps rampLen)).player_stats,
          st.xp < st.xp_to_next_level) := by
  have h1 : applyOps rampState (rampOps rampLen)
      = { rampState with
          player_stats := [applyGrants (start_session_new_stats "pl") (rampGrants rampLen)] } :=
    applyOps_addXp (rampGrants rampLen) rampState (start_session_new_stats "pl") rfl rfl
  have h2 := ramp_spec "pl" rampLen (by norm_num [rampLen])
  rw [h1, h2]
  have hw : w32 (rampLen + 2) = 0 := by norm_num [rampLen, w32]
  rw [hw, calculate_xp_for_level_le_one (by norm_num : (0:Nat) ≤ 1)]
  exact ⟨rfl, by decide⟩

/-- C10 (amended). Starting from the engine-created row (level 1, xp 0,
threshold xpForLevel 2), after any sequence of XP grants through the
`add_xp_internal` row transformation the level stays at least 1, and the
residue invariant xp < xpToNextLevel holds unless the level has reached
the u32 wrap boundary 4294967295, where the cached threshold becomes
calculate_xp_for_level 0 = 0 and the strict inequality is unsatisfiable
(the counterexample above reaches exactly that state). -/
theorem claim_C10_xp_residue_amended (pid : String) (grants : List Nat) :
    1 ≤ (applyGrants (start_session_new_stats pid) grants).level
    ∧ ((applyGrants (start_session_new_stats pid) grants).xp
        < (applyGrants (start_session_new_stats pid) grants).xp_to_next_level
      ∨ (applyGrants (start_session_new_stats pid) grants).level = 4294967295) := by
  obtain ⟨h1, h2, h3, h4⟩ := applyGrants_inv grants (start_session_new_stats pid)
    (Nat.le_refl 1) (by show (1:Nat) < 4294967296; norm_num) rfl
    (Or.inl (calculate_xp_for_level_pos (by norm_num : 2 ≤ 2)))
  refine ⟨h1, ?_⟩
  rcases h4 with h | h
  · exact Or.inl h
  · right
    rw [h] at h3
    by_cases hge : 2 ≤ w32 ((applyGrants (start_session_new_stats pid) grants).level + 1)
    · have := calculate_xp_for_level_pos hge
      omega
    · push_neg at hge
      unfold w32 at hge
      omega

theorem digitChar_isDigit (d : Nat) : (digitChar d).isDigit = true := by
  unfold digitChar
  split <;> decide

theorem digitVal_digitChar {d : Nat} (h : d < 10) : digitVal (digitChar d) = d := by
  interval_cases d <;> decide

theorem natToDigitsAux_digits : ∀ (fuel n : Nat), ∀ c ∈ natToDigitsAux n fuel, c.isDigit = true := by
  intro fuel
  induction fuel with
  | zero => intro n c hc; exact absurd hc (by simp [natToDigitsAux])
  | succ f ih =>
    intro n c hc
    unfold natToDigitsAux at hc
    split at hc
    · rcases List.mem_singleton.mp hc with rfl
      exact digitChar_isDigit n
    · rcases List.mem_append.mp hc with h | h
      · exact ih _ c h
      · rcases List.mem_singleton.mp h with rfl
        exact digitChar_isDigit (n % 10)

theorem natToDigits_digits (n : Nat) : ∀ c ∈ natToDigits n, c.isDigit = true :=
  natToDigitsAux_digits (n + 1) n

theorem natToDigitsAux_ne_nil (fuel n : Nat) (h : 0 < fuel) : natToDigitsAux n fuel ≠ [] := by
  cases fuel with
  | zero => omega
  | succ f =>
    unfold natToDigitsAux
    split
    · simp
    · simp

theorem natToDigits_ne_nil (n : Nat) : natToDigits n ≠ [] :=
  natToDigitsAux_ne_nil (n + 1) n (by omega)

theorem digitsVal_concat (l : List Char) (c : Char) :
    digitsVal (l ++ [c]) = digitsVal l * 10 + digitVal c := by
  unfold digitsVal
  rw [List.foldl_append]
  rfl

theorem digitsVal_natToDigitsAux : ∀ (fuel n : Nat), n < fuel →
    digitsVal (natToDigitsAux n fuel) = n := by
  intro fuel
  induction fuel with
  | zero => intro n h; omega
  | succ f ih =>
    intro n h
    unfold natToDigitsAux
    split
    · rename_i h10
      show 0 * 10 + digitVal (digitChar n) = n
      rw [digitVal_digitChar h10]
      omega
    · rw [digitsVal_concat]
      rw [ih (n / 10) (by omega)]
      rw [digitVal_digitChar (Nat.mod_lt n (by omega))]
      omega

theorem digitsVal_natToDigits (n : Nat) : digitsVal (natToDigits n) = n :=
  digitsVal_natToDigitsAux (n + 1) n (by omega)

theorem isDigit_ne_quote {c : Char} (h : c.isDigit = true) : c ≠ '"' := by
  intro he; subst he; exact absurd h (by decide)

theorem isDigit_ne_colon {c : Char} (h : c.isDigit = true) : c ≠ ':' := by
  intro he; subst he; exact absurd h (by decide)

theorem isDigit_not_ws {c : Char} (h : c.isDigit = true) : isWs c = false := by
  revert h
  unfold Char.isDigit isWs
  intro h
  simp only [Bool.or_eq_false_iff]
  refine ⟨⟨⟨?_, ?_⟩, ?_⟩, ?_⟩ <;>
    · simp only [decide_eq_false_iff_not]
      intro he
      subst he
      simp at h

theorem parseU32_natToDigits {v : Nat} (hv : v < 4294967296) :
    parseU32 (natToDigits v) = some v := by
  unfold parseU32
  simp only []
  have hne : natToDigits v ≠ [] := natToDigits_ne_nil v
  have hplus : ¬ (natToDigits v).head? = some '+' := by
    intro h
    have hmem : '+' ∈ natToDigits v := List.mem_of_mem_head? (by rw [h]; rfl)
    exact absurd (natToDigits_digits v '+' hmem) (by decide)
  rw [if_neg hplus]
  rw [if_neg (by simp [List.isEmpty_iff]; exact hne)]
  rw [if_pos (by rw [List.all_eq_true]; exact natToDigits_digits v)]
  rw [digitsVal_natToDigits]
  rw [if_pos hv]

/-- A quote-terminated needle key cannot match at a key opening quote
unless the keys are equal: the first disagreement (or the needle's
closing quote against a key character, or a key character against the
document's closing quote) refutes the prefix. -/
theorem not_prefix_of_ne_key : ∀ (key k rest : List Char), key ≠ k →
    (∀ c ∈ key, c ≠ '"') → (∀ c ∈ k, c ≠ '"') →
    ¬ (key ++ ['"']) <+: (k ++ '"' :: rest) := by
  intro key
  induction key with
  | nil =>
    intro k rest hne _ hk2 hpre
    cases k with
    | nil => exact hne rfl
    | cons c k' =>
      rw [List.nil_append] at hpre
      rcases List.cons_prefix_cons.mp hpre with ⟨h1, _⟩
      exact hk2 c (List.mem_cons_self c k') h1.symm
  | cons a key' ih =>
    intro k rest hne hk1 hk2 hpre
    cases k with
    | nil =>
      rw [List.nil_append, List.cons_append] at hpre
      rcases List.cons_prefix_cons.mp hpre with ⟨h1, _⟩
      exact hk1 a (List.mem_cons_self a key') h1
    | cons c k' =>
      rw [List.cons_append, List.cons_append] at hpre
      rcases List.cons_prefix_cons.mp hpre with ⟨h1, h2⟩
      subst h1
      exact ih k' rest (fun he => hne (by rw [he]))
        (fun x hx => hk1 x (List.mem_cons_of_mem a hx))
        (fun x hx => hk2 x (List.mem_cons_of_mem a hx)) h2

/-- A colon-free needle key cannot match at a key's closing quote: the
character after that quote is always a colon. -/
theorem not_prefix_at_colon (key rest : List Char) (hk : ∀ c ∈ key, c ≠ ':') :
    ¬ (key ++ ['"']) <+: (':' :: rest) := by
  intro hpre
  cases key with
  | nil =>
    rw [List.nil_append] at hpre
    rcases List.cons_prefix_cons.mp hpre with ⟨h1, _⟩
    exact absurd h1 (by decide)
  | cons a key' =>
    rw [List.cons_append] at hpre
    rcases List.cons_prefix_cons.mp hpre with ⟨h1, _⟩
    exact hk a (List.mem_cons_self a key') h1

theorem Skips_nil (needle : List Char) : Skips [] needle := by
  intro t
  rw [List.nil_append]
  cases strFind t needle <;> simp

theorem strFind_cons (c : Char) (t needle : List Char) :
    strFind (c :: t) needle
      = if needle.isPrefixOf (c :: t) then some 0 else (strFind t needle).map (· + 1) := rfl

theorem Skips_cons_of_no_match {c : Char} {a needle : List Char}
    (h : ∀ t, ¬ needle <+: (c :: (a ++ t))) (ha : Skips a needle) : Skips (c :: a) needle := by
  intro t
  show strFind (c :: (a ++ t)) needle = _
  rw [strFind_cons]
  rw [if_neg (fun hb => h t (List.isPrefixOf_iff_prefix.mp hb))]
  rw [ha t]
  cases strFind t needle <;> simp [Nat.add_assoc]

theorem Skips_append {a b needle : List Char} (ha : Skips a needle) (hb : Skips b needle) :
    Skips (a ++ b) needle := by
  intro t
  rw [List.append_assoc, ha (b ++ t), hb t]
  cases strFind t needle with
  | none => simp
  | some x => simp; omega

/-- Skip one character that is not the needle's opening quote. -/
theorem Skips_char {c : Char} {a : List Char} (key : List Char) (hc : c ≠ '"')
    (ha : Skips a (quoteKey key)) : Skips (c :: a) (quoteKey key) := by
  refine Skips_cons_of_no_match (fun t hpre => ?_) ha
  rcases List.cons_prefix_cons.mp hpre with ⟨h1, _⟩
  exact hc h1.symm

/-- Skip any quote-free segment. -/
theorem Skips_no_quote {a : List Char} (key : List Char) (h : ∀ c ∈ a, c ≠ '"') :
    Skips a (quoteKey key) := by
  induction a with
  | nil => exact Skips_nil _
  | cons c a' ih =>
    exact Skips_char key (h c (List.mem_cons_self c a'))
      (ih (fun x hx => h x (List.mem_cons_of_mem c hx)))

/-- Skip a whole rendered binding of a different key. -/
theorem Skips_pair {k : List Char} {w : Nat} {key : List Char}
    (hk : SafeKey k) (hkey : SafeKey key) (hne : k ≠ key) :
    Skips (renderPair (k, w)) (quoteKey key) := by
  have hshape : renderPair (k, w) = '"' :: (k ++ ('"' :: (':' :: natToDigits w))) := by
    simp [renderPair, quoteKey]
  rw [hshape]
  refine Skips_cons_of_no_match (fun t hpre => ?_) ?_
  · rcases List.cons_prefix_cons.mp hpre with ⟨_, h2⟩
    rw [List.append_assoc] at h2
    exact not_prefix_of_ne_key key k _ (fun he => hne (he.symm))
      (fun c hc => (hkey.2 c hc).1) (fun c hc => (hk.2 c hc).1) h2
  · refine Skips_append (Skips_no_quote key (fun c hc => (hk.2 c hc).1)) ?_
    refine Skips_cons_of_no_match (fun t hpre => ?_) ?_
    · rcases List.cons_prefix_cons.mp hpre with ⟨_, h2⟩
      exact not_prefix_at_colon key _ (fun c hc => (hkey.2 c hc).2) h2
    · refine Skips_char key (by decide) ?_
      exact Skips_no_quote key (fun c hc => isDigit_ne_quote (natToDigits_digits w c hc))

theorem strFind_match_at_head {hay needle : List Char} (h : needle <+: hay) :
    strFind hay needle = some 0 := by
  cases hay with
  | nil =>
    rcases List.prefix_nil.mp h with rfl
    rfl
  | cons c t =>
    rw [strFind_cons]
    rw [if_pos (List.isPrefixOf_iff_prefix.mpr h)]

/-- The first match of the needle after a skipped prefix is exactly at
the end of that prefix. -/
theorem strFind_found (a rest needle : List Char) (hs : Skips a needle) :
    strFind (a ++ (needle ++ rest)) needle = some a.length := by
  rw [hs (needle ++ rest)]
  rw [strFind_match_at_head (List.prefix_append needle rest)]
  simp

/-- A needle with an opening quote never occurs in a fully skippable
document. -/
theorem strFind_none (doc key : List Char) (hs : Skips doc (quoteKey key)) :
    strFind doc (quoteKey key) = none := by
  have h := hs []
  rw [List.append_nil] at h
  rw [h]
  rfl

theorem findIdx?_cons_simple (p : Char → Bool) (a : Char) (l : List Char) :
    (a :: l).findIdx? p = if p a then some 0 else (l.findIdx? p).map (· + 1) := by
  rw [List.findIdx?_cons]
  rw [List.findIdx?_succ]

/-- The first non-digit after a digit run and a non-digit-headed tail
is right after the run. -/
theorem findIdx?_digit_run : ∀ (ds tail : List Char),
    (∀ c ∈ ds, c.isDigit = true) → (∀ c ∈ tail.head?, c.isDigit = false) →
    (ds ++ tail).findIdx? (fun c => ! c.isDigit)
      = if tail.isEmpty then none else some ds.length := by
  intro ds
  induction ds with
  | nil =>
    intro tail _ htail
    cases tail with
    | nil => rfl
    | cons c t =>
      rw [List.nil_append, findIdx?_cons_simple]
      rw [if_pos (by rw [htail c rfl]; rfl)]
      rfl
  | cons d ds' ih =>
    intro tail hds htail
    rw [List.cons_append, findIdx?_cons_simple]
    rw [if_neg (by rw [hds d (List.mem_cons_self d ds')]; simp)]
    rw [ih tail (fun c hc => hds c (List.mem_cons_of_mem d hc)) htail]
    cases tail with
    | nil => rfl
    | cons c t => simp

theorem drop_two_append (a b c : List Char) :
    (a ++ (b ++ c)).drop (a.length + b.length) = c := by
  rw [← List.append_assoc, ← List.length_append]
  exact List.drop_left (a ++ b) c

theorem findIdx?_colon_head (l : List Char) : (':' :: l).findIdx? (· = ':') = some 0 := by
  rw [findIdx?_cons_simple]
  simp

theorem trimStart_of_head_not_ws : ∀ (l : List Char),
    (∀ c ∈ l.head?, isWs c = false) → trimStart l = l := by
  intro l h
  cases l with
  | nil => rfl
  | cons c t =>
    unfold trimStart
    rw [List.dropWhile_cons]
    rw [if_neg (by rw [h c rfl]; simp)]

theorem head?_append_of_ne_nil {a : List Char} (b : List Char) (h : a ≠ []) :
    (a ++ b).head? = a.head? := by
  cases a with
  | nil => exact absurd rfl h
  | cons c t => rfl

theorem numEnd_digit_run (ds tail : List Char)
    (hds : ∀ c ∈ ds, c.isDigit = true) (htail : ∀ c ∈ tail.head?, c.isDigit = false) :
    ((ds ++ tail).findIdx? (fun c => ! c.isDigit)).getD (ds ++ tail).length = ds.length := by
  rw [findIdx?_digit_run ds tail hds htail]
  cases tail with
  | nil => simp
  | cons c t => rfl

theorem head_digits_not_ws (v : Nat) (tail : List Char) :
    ∀ c ∈ (natToDigits v ++ tail).head?, isWs c = false := by
  intro c hc
  rw [head?_append_of_ne_nil tail (natToDigits_ne_nil v)] at hc
  exact isDigit_not_ws (natToDigits_digits v c (List.mem_of_mem_head? hc))

/-- Reading a key whose rendered binding follows a skippable prefix
returns the written value. -/
theorem extract_at (a tail key : List Char) (v : Nat)
    (hs : Skips a (quoteKey key))
    (htail : ∀ c ∈ tail.head?, c.isDigit = false)
    (hv : v < 4294967296) :
    extract_json_number (a ++ (quoteKey key ++ (':' :: (natToDigits v ++ tail)))) key
      = some v := by
  unfold extract_json_number
  simp only []
  rw [strFind_found a (':' :: (natToDigits v ++ tail)) (quoteKey key) hs]
  simp only []
  rw [drop_two_append]
  rw [findIdx?_colon_head]
  simp only []
  rw [show ((':' :: (natToDigits v ++ tail)).drop (0 + 1)) = natToDigits v ++ tail from rfl]
  rw [trimStart_of_head_not_ws _ (head_digits_not_ws v tail)]
  rw [numEnd_digit_run _ _ (natToDigits_digits v) htail]
  rw [if_pos (List.length_pos.mpr (natToDigits_ne_nil v))]
  rw [List.take_left (natToDigits v) tail]
  exact parseU32_natToDigits hv

/-- Writing a key whose rendered binding follows a skippable prefix
replaces exactly the numeric value, preserving everything else. -/
theorem set_at (a tail key : List Char) (w v : Nat)
    (hs : Skips a (quoteKey key))
    (htail : ∀ c ∈ tail.head?, c.isDigit = false) :
    set_progress_count (a ++ (quoteKey key ++ (':' :: (natToDigits w ++ tail)))) key v
      = a ++ (quoteKey key ++ (':' :: (natToDigits v ++ tail))) := by
  have hfound := strFind_found a (':' :: (natToDigits w ++ tail)) (quoteKey key) hs
  unfold set_progress_count
  simp only []
  rw [if_pos (by unfold strContains; rw [hfound]; rfl)]
  rw [hfound]
  simp only []
  rw [List.take_left a (quoteKey key ++ (':' :: (natToDigits w ++ tail)))]
  rw [drop_two_append]
  rw [findIdx?_colon_head]
  simp only []
  rw [show ((':' :: (natToDigits w ++ tail)).drop (0 + 1)) = natToDigits w ++ tail from rfl]
  rw [trimStart_of_head_not_ws _ (head_digits_not_ws w tail)]
  rw [numEnd_digit_run _ _ (natToDigits_digits w) htail]
  rw [Nat.sub_self]
  rw [Nat.zero_add]
  rw [List.drop_left (natToDigits w) tail]
  simp [List.append_assoc]

theorem rpTail_append (x y : Pairs) : rpTail (x ++ y) = rpTail x ++ rpTail y := by
  induction x with
  | nil => rfl
  | cons p ps ih =>
    show ',' :: (renderPair p ++ rpTail (ps ++ y)) = (',' :: (renderPair p ++ rpTail ps)) ++ rpTail y
    rw [ih]
    simp [List.append_assoc]

theorem Skips_rpTail {key : List Char} (hkey : SafeKey key) : ∀ ps : Pairs,
    (∀ p ∈ ps, SafeKey p.1 ∧ p.1 ≠ key) → Skips (rpTail ps) (quoteKey key) := by
  intro ps
  induction ps with
  | nil => intro _; exact Skips_nil _
  | cons p ps' ih =>
    intro h
    show Skips (',' :: (renderPair p ++ rpTail ps')) (quoteKey key)
    refine Skips_char key (by decide) (Skips_append ?_ (ih (fun q hq => h q (List.mem_cons_of_mem p hq))))
    have hp := h p (List.mem_cons_self p ps')
    exact (show Skips (renderPair (p.1, p.2)) (quoteKey key) from Skips_pair hp.1 hkey hp.2)

theorem Skips_renderPairs {key : List Char} (hkey : SafeKey key) (ps : Pairs)
    (h : ∀ p ∈ ps, SafeKey p.1 ∧ p.1 ≠ key) : Skips (renderPairs ps) (quoteKey key) := by
  cases ps with
  | nil => exact Skips_nil _
  | cons p ps' =>
    show Skips (renderPair p ++ rpTail ps') (quoteKey key)
    have hp := h p (List.mem_cons_self p ps')
    refine Skips_append ?_ (Skips_rpTail hkey ps' (fun q hq => h q (List.mem_cons_of_mem p hq)))
    exact (show Skips (renderPair (p.1, p.2)) (quoteKey key) from Skips_pair hp.1 hkey hp.2)

/-- Rendered document with the key's binding first. -/
theorem render_decomp_head (key : List Char) (w : Nat) (ps2 : Pairs) :
    render ((key, w) :: ps2)
      = ['\x7b'] ++ (quoteKey key ++ (':' :: (natToDigits w ++ (rpTail ps2 ++ ['\x7d'])))) := by
  show '\x7b' :: ((renderPair (key, w) ++ rpTail ps2) ++ ['\x7d']) = _
  simp [renderPair, List.append_assoc]

/-- Rendered document with the key's binding after a non-empty prefix. -/
theorem render_decomp_cons (p : List Char × Nat) (ps1 : Pairs) (key : List Char) (w : Nat)
    (ps2 : Pairs) :
    render ((p :: ps1) ++ (key, w) :: ps2)
      = ('\x7b' :: (renderPair p ++ (rpTail ps1 ++ [','])))
        ++ (quoteKey key ++ (':' :: (natToDigits w ++ (rpTail ps2 ++ ['\x7d'])))) := by
  show '\x7b' :: ((renderPair p ++ rpTail (ps1 ++ (key, w) :: ps2)) ++ ['\x7d']) = _
  rw [rpTail_append]
  show '\x7b' :: ((renderPair p ++ (rpTail ps1 ++ (',' :: (renderPair (key, w) ++ rpTail ps2)))) ++ ['\x7d']) = _
  simp [renderPair, List.append_assoc]

/-- The closing region after a binding never starts with a digit. -/
theorem tail_head_not_digit (ps2 : Pairs) :
    ∀ c ∈ (rpTail ps2 ++ ['\x7d']).head?, c.isDigit = false := by
  intro c hc
  cases ps2 with
  | nil =>
    simp [rpTail] at hc
    subst hc
    decide
  | cons q qs =>
    simp [rpTail] at hc
    subst hc
    decide

theorem Skips_render {key : List Char} (hkey : SafeKey key) (ps : Pairs)
    (h : ∀ p ∈ ps, SafeKey p.1 ∧ p.1 ≠ key) : Skips (render ps) (quoteKey key) := by
  show Skips ('\x7b' :: (renderPairs ps ++ ['\x7d'])) (quoteKey key)
  refine Skips_char key (by decide) ?_
  exact Skips_append (Skips_renderPairs hkey ps h) (Skips_char key (by decide) (Skips_nil _))

theorem Skips_prefix_cons {key : List Char} (hkey : SafeKey key) (p : List Char × Nat)
    (ps1 : Pairs) (h1 : ∀ q ∈ p :: ps1, SafeKey q.1 ∧ q.1 ≠ key) :
    Skips ('\x7b' :: (renderPair p ++ (rpTail ps1 ++ [',']))) (quoteKey key) := by
  have hp := h1 p (List.mem_cons_self p ps1)
  refine Skips_char key (by decide) ?_
  refine Skips_append
    (show Skips (renderPair (p.1, p.2)) _ from Skips_pair hp.1 hkey hp.2) ?_
  refine Skips_append (Skips_rpTail hkey ps1 (fun q hq => h1 q (List.mem_cons_of_mem p hq))) ?_
  exact Skips_char key (by decide) (Skips_nil _)

/-- Reading a present key on a rendered document. -/
theorem extract_present (ps1 ps2 : Pairs) (key : List Char) (v : Nat)
    (hkey : SafeKey key) (h1 : ∀ p ∈ ps1, SafeKey p.1 ∧ p.1 ≠ key)
    (hv : v < 4294967296) :
    extract_json_number (render (ps1 ++ (key, v) :: ps2)) key = some v := by
  cases ps1 with
  | nil =>
    rw [List.nil_append, render_decomp_head]
    exact extract_at _ _ key v (Skips_char key (by decide) (Skips_nil _))
      (tail_head_not_digit ps2) hv
  | cons p ps1' =>
    rw [render_decomp_cons]
    exact extract_at _ _ key v (Skips_prefix_cons hkey p ps1' h1) (tail_head_not_digit ps2) hv

/-- Writing a present key on a rendered document replaces in place. -/
theorem set_present (ps1 ps2 : Pairs) (key : List Char) (w v : Nat)
    (hkey : SafeKey key) (h1 : ∀ p ∈ ps1, SafeKey p.1 ∧ p.1 ≠ key) :
    set_progress_count (render (ps1 ++ (key, w) :: ps2)) key v
      = render (ps1 ++ (key, v) :: ps2) := by
  cases ps1 with
  | nil =>
    rw [List.nil_append, List.nil_append, render_decomp_head, render_decomp_head]
    exact set_at _ _ key w v (Skips_char key (by decide) (Skips_nil _))
      (tail_head_not_digit ps2)
  | cons p ps1' =>
    rw [render_decomp_cons, render_decomp_cons]
    exact set_at _ _ key w v (Skips_prefix_cons hkey p ps1' h1) (tail_head_not_digit ps2)

/-- Writing an absent key appends its binding before the closing brace. -/
theorem set_absent (ps : Pairs) (key : List Char) (v : Nat)
    (hkey : SafeKey key) (h : ∀ p ∈ ps, SafeKey p.1 ∧ p.1 ≠ key) :
    set_progress_count (render ps) key v = render (ps ++ [(key, v)]) := by
  have hnone : strFind (render ps) (quoteKey key) = none :=
    strFind_none _ _ (Skips_render hkey ps h)
  unfold set_progress_count
  simp only []
  rw [if_neg (show ¬ strContains (render ps) (quoteKey key) = true by
    unfold strContains; rw [hnone]; simp)]
  simp only []
  cases ps with
  | nil =>
    rw [if_pos (show render [] = emptyDoc from rfl)]
    simp [render, renderPairs, renderPair, rpTail, List.append_assoc]
  | cons p ps' =>
    have hne : ¬ (render (p :: ps') = emptyDoc) := by
      intro he
      have hlen := congrArg List.length he
      simp [render, renderPairs, renderPair, emptyDoc, quoteKey] at hlen
    have hlast : (render (p :: ps')).getLast? = some '\x7d' := by
      show (('\x7b' :: renderPairs (p :: ps')) ++ ['\x7d']).getLast? = some '\x7d'
      exact List.getLast?_concat _
    have hdrop : (render (p :: ps')).dropLast = '\x7b' :: renderPairs (p :: ps') := by
      show (('\x7b' :: renderPairs (p :: ps')) ++ ['\x7d']).dropLast = _
      exact List.dropLast_concat
    rw [if_neg hne, if_pos hlast, hdrop]
    show '\x7b' :: (renderPair p ++ rpTail ps') ++ ',' :: quoteKey key
        ++ ':' :: natToDigits v ++ ['\x7d'] = render ((p :: ps') ++ [(key, v)])
    simp [render, renderPairs, renderPair, rpTail_append, rpTail, List.append_assoc]

theorem setPairs_absent (key : List Char) (v : Nat) : ∀ ps : Pairs,
    (∀ p ∈ ps, p.1 ≠ key) → setPairs ps key v = ps ++ [(key, v)] := by
  intro ps
  induction ps with
  | nil => intro _; rfl
  | cons p ps' ih =>
    intro h
    show (if p.1 = key then (key, v) :: ps' else p :: setPairs ps' key v) = _
    rw [if_neg (h p (List.mem_cons_self p ps'))]
    rw [ih (fun q hq => h q (List.mem_cons_of_mem p hq))]
    rfl

theorem setPairs_present (key : List Char) (w v : Nat) : ∀ ps1 ps2 : Pairs,
    (∀ p ∈ ps1, p.1 ≠ key) →
    setPairs (ps1 ++ (key, w) :: ps2) key v = ps1 ++ (key, v) :: ps2 := by
  intro ps1
  induction ps1 with
  | nil =>
    intro ps2 _
    show (if key = key then (key, v) :: ps2 else _) = _
    rw [if_pos rfl]
    rfl
  | cons p ps1' ih =>
    intro ps2 h
    show (if p.1 = key then _ else p :: setPairs (ps1' ++ (key, w) :: ps2) key v) = _
    rw [if_neg (h p (List.mem_cons_self p ps1'))]
    rw [ih ps2 (fun q hq => h q (List.mem_cons_of_mem p hq))]
    rfl

/-- Either the key is absent, or the list splits at its first binding. -/
theorem split_first (ps : Pairs) (key : List Char) :
    (∀ p ∈ ps, p.1 ≠ key)
    ∨ ∃ ps1 w ps2, ps = ps1 ++ (key, w) :: ps2 ∧ ∀ p ∈ ps1, p.1 ≠ key := by
  induction ps with
  | nil => exact Or.inl (fun p hp => absurd hp (List.not_mem_nil p))
  | cons p ps' ih =>
    by_cases hp : p.1 = key
    · refine Or.inr ⟨[], p.2, ps', ?_, fun q hq => absurd hq (List.not_mem_nil q)⟩
      rw [List.nil_append, ← hp]
    · rcases ih with habs | ⟨ps1, w, ps2, heq, h1⟩
      · refine Or.inl ?_
        intro q hq
        rcases List.mem_cons.mp hq with rfl | hq'
        · exact hp
        · exact habs q hq'
      · refine Or.inr ⟨p :: ps1, w, ps2, by rw [heq]; rfl, ?_⟩
        intro q hq
        rcases List.mem_cons.mp hq with rfl | hq'
        · exact hp
        · exact h1 q hq'

/-- C8: read-after-write round trip of the document codec. For every
flat engine-style document - rendered from key/value bindings whose keys
are non-empty and free of quotes and colons - and every such key and
u32 value, set_progress_count rewrites the document exactly as the
binding-level setPairs does (replacing the first binding of a present
key in place, else appending the new pair before the closing brace),
and extract_json_number reads the written value back. -/
theorem claim_C8_codec_round_trip (ps : Pairs) (key : List Char) (v : Nat)
    (hkey : SafeKey key) (hps : ∀ p ∈ ps, SafeKey p.1) (hv : v < 4294967296) :
    set_progress_count (render ps) key v = render (setPairs ps key v)
    ∧ extract_json_number (set_progress_count (render ps) key v) key = some v := by
  rcases split_first ps key with habs | ⟨ps1, w, ps2, heq, h1⟩
  · have hmix : ∀ p ∈ ps, SafeKey p.1 ∧ p.1 ≠ key := fun p hp => ⟨hps p hp, habs p hp⟩
    have hset := set_absent ps key v hkey hmix
    refine ⟨by rw [hset, setPairs_absent key v ps habs], ?_⟩
    rw [hset]
    exact extract_present ps [] key v hkey hmix hv
  · subst heq
    have h1' : ∀ p ∈ ps1, SafeKey p.1 ∧ p.1 ≠ key :=
      fun p hp => ⟨hps p (List.mem_append.mpr (Or.inl hp)), h1 p hp⟩
    have hset := set_present ps1 ps2 key w v hkey h1'
    refine ⟨?_, ?_⟩
    · rw [hset, setPairs_present key w v ps1 ps2 h1]
    · rw [hset]
      exact extract_present ps1 ps2 key v hkey h1' hv

/-- Witness for C8 on a concrete one-binding document. -/
theorem claim_C8_codec_round_trip_witness :
    (SafeKey "total".data ∧ (∀ p ∈ ([("fish_pond_1".data, 2)] : Pairs), SafeKey p.1)
      ∧ (5:Nat) < 4294967296)
    ∧ (set_progress_count (render [("fish_pond_1".data, 2)]) "total".data 5
        = render (setPairs [("fish_pond_1".data, 2)] "total".data 5)
      ∧ extract_json_number
          (set_progress_count (render [("fish_pond_1".data, 2)]) "total".data 5) "total".data
        = some 5) :=
  ⟨⟨by decide, by decide, by decide⟩,
   claim_C8_codec_round_trip [("fish_pond_1".data, 2)] "total".data 5 (by decide) (by decide)
     (by decide)⟩
